import Mathlib

/-!
# GoStream: service orchestration and edge HTTP handler

A shallow embedding of `src/app.go` and `src/livego.go`.

* The `App` struct becomes the record `App`; every method `func (a *App) f()` becomes a
  function on `Sys`, the record `App` together with the observable world: the ordered
  trace of effects, the goroutines spawned and not yet run, the global `configure.Config`
  and the supply of fresh handles.
* Inputs chosen by the environment (dialog answers, `os.Stat`, `net.Listen` outcomes, the
  embedded filesystem) are explicit arguments.
* Go strings are modelled as lists of characters (`Str`); the patterns involved are pure
  ASCII, so matching on characters and matching on UTF-8 bytes agree.
-/

namespace GoStream

/-- Go string contents. -/
abbrev Str := List Char

/-- Go `error` value: `none` is `nil`. -/
abbrev GoError := Option String

/-- Values of `runtime.MessageDialogOptions.Type` used by the program. -/
inductive DialogType where
  | InfoDialog
  | ErrorDialog
  | QuestionDialog
  deriving DecidableEq, Repr

/-- Result pair `(string, error)` of `runtime.MessageDialog`. -/
structure DialogResult where
  dialog : String
  err : GoError
  deriving DecidableEq, Repr

/-- Outcome of `os.Stat("frpc.toml")` as far as `os.IsNotExist` can tell. -/
inductive StatResult where
  | ok
  | notExist
  | otherError
  deriving DecidableEq, Repr

/-- Predicate `os.IsNotExist(err)` on the error of `os.Stat`. -/
def StatResult.IsNotExist : StatResult → Bool
  | .notExist => true
  | _ => false

/-- Specification side: `os.Stat` found the file, that is `err == nil`. -/
def StatResult.fileExists : StatResult → Bool
  | .ok => true
  | _ => false

/-- Goroutines started with `go`. -/
inductive Task where
  | livego (ctx : Nat)
  | frpc (ctx : Nat)
  | startingDialog
  | GetStreamKey (ctx : Nat)
  | ListenAndServe
  | Serve (server : String) (listener : Nat)
  deriving DecidableEq, Repr

/-- Observable effects, in program order. -/
inductive Event where
  | log (line : String)
  | EventsEmit (name : String) (data : List String)
  | MessageDialog (type : DialogType) (title : String)
  | WindowShow
  | WithCancel (tok : Nat)
  | cancel (tok : Nat)
  | wgAdd
  | wgWait
  | go (task : Task)
  | Listen (addr : String) (ok : Bool)
  | Close (listener : Nat)
  | Shutdown (srv : Nat)
  | ConfigSet (key value : String)
  deriving DecidableEq, Repr

/-- The struct `App` of `src/app.go`. Handles (`*http.Server`, `context.CancelFunc`,
`net.Listener`) are numbers, `nil` is `none`. The fields `mu` and `wg` are synchronisation
objects; `wg.Add` and `wg.Wait` appear as events. -/
structure App where
  ctx : Option Nat
  configOK : Bool
  httpServer : Option Nat
  livegoCancel : Option Nat
  frpcCancel : Option Nat
  livegoListeners : List (Option Nat)
  htmlTitle : Str
  streamKeyCancel : Option Nat
  backendIsRunning : Bool
  deriving DecidableEq, Repr

/-- The program state: the `App` struct and the world around it. -/
structure Sys where
  app : App
  config : List (String × String)
  trace : List Event
  pending : List Task
  fresh : Nat
  deriving DecidableEq, Repr

/-- Record one effect at the end of the trace. -/
def Sys.emit (s : Sys) (e : Event) : Sys :=
  { s with trace := s.trace ++ [e] }

/-- Statement `go f()`: the goroutine is recorded and waits to be scheduled. -/
def Sys.go (s : Sys) (t : Task) : Sys :=
  { s with trace := s.trace ++ [Event.go t], pending := s.pending ++ [t] }

/-- Call `context.WithCancel(context.Background())`: a fresh token. -/
def Sys.WithCancel (s : Sys) : Nat × Sys :=
  (s.fresh, { s with trace := s.trace ++ [Event.WithCancel s.fresh], fresh := s.fresh + 1 })

/-- Call `configure.Config.Set(key, value)`. -/
def Sys.ConfigSet (s : Sys) (key value : String) : Sys :=
  { s with config := (key, value) :: s.config, trace := s.trace ++ [Event.ConfigSet key value] }

/-- Call `configure.Config.GetString(key)`: the empty string when the key is unset. -/
def Sys.GetString (s : Sys) (key : String) : String :=
  match s.config.find? (fun kv => kv.1 == key) with
  | some kv => kv.2
  | none => ""

/-- Function `NewApp`. -/
def NewApp : App :=
  { ctx := none
    configOK := false
    httpServer := none
    livegoCancel := none
    frpcCancel := none
    livegoListeners := []
    htmlTitle := ['G', 'o', 'S', 't', 'r', 'e', 'a', 'm']
    streamKeyCancel := none
    backendIsRunning := false }

/-- The process right after `NewApp()`. -/
def Sys.init : Sys :=
  { app := NewApp, config := [], trace := [], pending := [], fresh := 0 }

/-- Method `startup`. -/
def startup (ctx : Nat) (s : Sys) : Sys :=
  { s with app := { s.app with ctx := some ctx, configOK := true },
           trace := s.trace ++ [Event.WindowShow] }

/-- Method `beforeClose`: the returned flag is `prevent`. -/
def beforeClose (dlg : DialogResult) (s : Sys) : Bool × Sys :=
  if !s.app.configOK then (false, s)
  else
    let s1 := s.emit (Event.MessageDialog DialogType.QuestionDialog "退出? / Quit?")
    if dlg.err ≠ none then (false, s1)
    else if dlg.dialog = "Yes" then (false, s1.emit (Event.log "User chose to quit"))
    else (true, s1.emit (Event.log "User chose to cancel quitting"))

/-- Method `UpdateHtmlTitle`. -/
def UpdateHtmlTitle (newTitle : Str) (s : Sys) : Sys :=
  { s with app := { s.app with htmlTitle := newTitle },
           trace := s.trace ++
             [Event.log "HTML title updated to: %s",
              Event.EventsEmit "service:log" ["system", "HTML title updated to: " ++ String.mk newTitle],
              Event.EventsEmit "title:updated" [String.mk newTitle]] }

/-- Call `net.Listen("tcp", addr)`; `listenOk addr` is the outcome chosen by the
operating system. -/
def netListen (listenOk : String → Bool) (addr : String) (s : Sys) : Option Nat × Sys :=
  if listenOk addr then
    (some s.fresh, { s with trace := s.trace ++ [Event.Listen addr true], fresh := s.fresh + 1 })
  else
    (none, s.emit (Event.Listen addr false))

/-- Statement `a.livegoListeners = append(a.livegoListeners, l)`. -/
def Sys.register (s : Sys) (l : Nat) : Sys :=
  { s with app := { s.app with livegoListeners := s.app.livegoListeners ++ [some l] } }

/-- Method `startHls` of `src/livego.go`: the HLS server handle and the error. -/
def startHls (listenOk : String → Bool) (s : Sys) : (Option Nat × GoError) × Sys :=
  let hlsAddr := s.GetString "hls_addr"
  match netListen listenOk hlsAddr s with
  | (none, s1) => ((none, some "listen"), s1)
  | (some hlsListen, s1) =>
    let s2 := s1.register hlsListen
    ((some hlsListen, none), s2.go (Task.Serve "HLS" hlsListen))

/-- Method `startRtmp` of `src/livego.go`. -/
def startRtmp (listenOk : String → Bool) (_hlsServer : Option Nat) (s : Sys) : GoError × Sys :=
  let rtmpAddr := s.GetString "rtmp_addr"
  match netListen listenOk rtmpAddr s with
  | (none, s1) => (some "listen", s1)
  | (some rtmpListen, s1) =>
    let s2 := s1.register rtmpListen
    let s3 := s2.emit (Event.log "RTMP Listen On ")
    (none, s3.go (Task.Serve "RTMP" rtmpListen))

/-- Method `startHTTPFlv` of `src/livego.go`. -/
def startHTTPFlv (listenOk : String → Bool) (s : Sys) : GoError × Sys :=
  let httpflvAddr := s.GetString "httpflv_addr"
  match netListen listenOk httpflvAddr s with
  | (none, s1) => (some "listen", s1)
  | (some flvListen, s1) =>
    let s2 := s1.register flvListen
    (none, s2.go (Task.Serve "HTTP-FLV" flvListen))

/-- Method `startAPI` of `src/livego.go`. -/
def startAPI (listenOk : String → Bool) (s : Sys) : GoError × Sys :=
  let apiAddr := s.GetString "api_addr"
  if apiAddr ≠ "" then
    match netListen listenOk apiAddr s with
    | (none, s1) => (some "listen", s1)
    | (some opListen, s1) =>
      let s2 := s1.register opListen
      (none, s2.go (Task.Serve "HTTP-API" opListen))
  else (none, s)

/-- One element of `configure.Applications`. -/
structure Application where
  Appname : String
  Live : Bool
  Hls : Bool
  Api : Bool
  Flv : Bool
  deriving DecidableEq, Repr

/-- The literal `apps` of `runLivego`. -/
def apps : List Application :=
  [{ Appname := "live", Live := true, Hls := true, Api := true, Flv := true }]

/-- Body of the loop `for _, app := range apps` in `runLivego`; the flag is `false` when
the body executed `return`. -/
def runLivegoApp (listenOk : String → Bool) (app : Application) (s : Sys) : Bool × Sys :=
  let r1 : (Option Nat × GoError) × Sys :=
    if app.Hls then startHls listenOk s else ((none, none), s)
  match r1 with
  | ((_, some _), s1) => (false, s1.emit (Event.log "startHls failed: %v"))
  | ((hlsServer, none), s1) =>
    let r2 : GoError × Sys := if app.Flv then startHTTPFlv listenOk s1 else (none, s1)
    match r2 with
    | (some _, s2) => (false, s2.emit (Event.log "startHTTPFlv failed: %v"))
    | (none, s2) =>
      let r3 : GoError × Sys := if app.Api then startAPI listenOk s2 else (none, s2)
      match r3 with
      | (some _, s3) => (false, s3.emit (Event.log "startAPI failed: %v"))
      | (none, s3) =>
        match startRtmp listenOk hlsServer s3 with
        | (some _, s4) => (false, s4.emit (Event.log "startRtmp failed: %v"))
        | (none, s4) => (true, s4)

/-- The loop `for _, app := range apps` of `runLivego`, stopping at the first `return`. -/
def runLivegoLoop (listenOk : String → Bool) : List Application → Sys → Sys
  | [], s => s
  | app :: rest, s =>
    match runLivegoApp listenOk app s with
    | (false, s1) => s1
    | (true, s1) => runLivegoLoop listenOk rest s1

/-- Method `runLivego` of `src/livego.go`, up to the point where it either returns or
blocks on `<-ctx.Done()`. -/
def runLivego (listenOk : String → Bool) (s : Sys) : Sys :=
  let s1 := s.ConfigSet "rtmp_addr" ":1935"
  let s2 := s1.ConfigSet "httpflv_addr" ":7001"
  let s3 := s2.ConfigSet "hls_addr" ":7002"
  let s4 := s3.ConfigSet "api_addr" ":8090"
  runLivegoLoop listenOk apps s4

/-- The goroutine started by `startLivego`, up to its `<-ctx.Done()`. -/
def livegoGoroutine (listenOk : String → Bool) (s : Sys) : Sys :=
  let s1 := s.emit (Event.log "Starting LiveGo service...")
  let s2 := s1.emit (Event.EventsEmit "service:status" ["livego", "Running"])
  runLivego listenOk s2

/-- Method `startLivego`. -/
def startLivego (s : Sys) : Sys :=
  if s.app.livegoCancel ≠ none then s.emit (Event.log "LiveGo is already running.")
  else
    let (cancel, s1) := s.WithCancel
    let s2 := { s1 with app := { s1.app with livegoCancel := some cancel } }
    let s3 := s2.emit Event.wgAdd
    s3.go (Task.livego cancel)

/-- The loop `for _, l := range a.livegoListeners` of `stopLivego`. -/
def closeAll : List (Option Nat) → List Event
  | [] => []
  | some l :: ls => Event.Close l :: closeAll ls
  | none :: ls => closeAll ls

/-- Method `stopLivego`. -/
def stopLivego (s : Sys) : Sys :=
  let s1 : Sys :=
    match s.app.livegoCancel with
    | some cancel =>
      { s with app := { s.app with livegoCancel := none },
               trace := s.trace ++ [Event.log "Stopping LiveGo service...", Event.cancel cancel] }
    | none => s
  { s1 with app := { s1.app with livegoListeners := [] },
            trace := s1.trace ++ closeAll s1.app.livegoListeners }

/-- Method `startFrpc`. -/
def startFrpc (stat : StatResult) (dlg : DialogResult) (s : Sys) : Sys :=
  if stat.IsNotExist then
    (s.emit (Event.log "frpc.toml not found, frpc will not start.")).emit
      (Event.MessageDialog DialogType.ErrorDialog "错误 / Error")
  else
    let s1 := s.emit (Event.MessageDialog DialogType.QuestionDialog "安全与合规性注意事项")
    if dlg.err ≠ none then s1.emit (Event.log "Error showing dialog: %v")
    else if dlg.dialog ≠ "Yes" then s1.emit (Event.log "User chose not to start frpc.")
    else
      let (cancel, s2) := s1.WithCancel
      let s3 := { s2 with app := { s2.app with frpcCancel := some cancel } }
      let s4 := s3.emit Event.wgAdd
      s4.go (Task.frpc cancel)

/-- Method `stopFrpc`. -/
def stopFrpc (s : Sys) : Sys :=
  match s.app.frpcCancel with
  | some cancel =>
    { s with app := { s.app with frpcCancel := none },
             trace := s.trace ++ [Event.log "Stopping FRPC service...", Event.cancel cancel] }
  | none => s

/-- Method `ToggleFRPC`. -/
def ToggleFRPC (stat : StatResult) (dlg : DialogResult) (s : Sys) : Sys :=
  if s.app.frpcCancel ≠ none then stopFrpc s else startFrpc stat dlg s

/-- Method `startWebServer`, as far as the `App` struct is concerned: the handler tree is
built (see `corsHandler` and `handler`), the server handle is stored and the goroutine
running `ListenAndServe` is started. -/
def startWebServer (s : Sys) : Sys :=
  let srv := s.fresh
  let s1 := { s with app := { s.app with httpServer := some srv }, fresh := s.fresh + 1 }
  s1.go Task.ListenAndServe

/-- Method `stopWebServer`; `shutdownErr` is the result of `a.httpServer.Shutdown(ctx)`. -/
def stopWebServer (shutdownErr : GoError) (s : Sys) : Sys :=
  match s.app.httpServer with
  | some srv =>
    let s1 := s.emit (Event.log "Stopping web server...")
    let s2 := s1.emit (Event.Shutdown srv)
    let s3 := if shutdownErr ≠ none then s2.emit (Event.log "Web server Shutdown error: %v")
              else s2.emit (Event.log "Web server stopped.")
    { s3 with app := { s3.app with httpServer := none } }
  | none => s

/-- Method `StartBackend`. -/
def StartBackend (shutdownErr : GoError) (s : Sys) : Sys :=
  if s.app.backendIsRunning then s.emit (Event.log "Backend is already running.")
  else
    let s1 := s.go Task.startingDialog
    let s2 := stopLivego s1
    let s3 := stopWebServer shutdownErr s2
    let s4 := startLivego s3
    let s5 := startWebServer s4
    let s6 := { s5 with app := { s5.app with backendIsRunning := true } }
    let s7 := s6.emit (Event.EventsEmit "streamkey:update" ["正在获取... / Fetching..."])
    let (cancel, s8) := s7.WithCancel
    let s9 := { s8 with app := { s8.app with streamKeyCancel := some cancel } }
    s9.go (Task.GetStreamKey cancel)

/-- Method `StopBackend`. -/
def StopBackend (shutdownErr : GoError) (s : Sys) : Sys :=
  if !s.app.backendIsRunning then s.emit (Event.log "Backend is not running.")
  else
    let s1 : Sys :=
      match s.app.streamKeyCancel with
      | some cancel =>
        { s with app := { s.app with streamKeyCancel := none },
                 trace := s.trace ++ [Event.cancel cancel] }
      | none => s
    let s2 := stopLivego s1
    let s3 := stopWebServer shutdownErr s2
    let s4 := { s3 with app := { s3.app with backendIsRunning := false } }
    s4.emit (Event.EventsEmit "streamkey:update" ["N/A"])

/-- Method `shutdown`. -/
def shutdown (shutdownErr : GoError) (s : Sys) : Sys :=
  let s1 : Sys :=
    if s.app.backendIsRunning then
      let s2 : Sys :=
        match s.app.streamKeyCancel with
        | some cancel => s.emit (Event.cancel cancel)
        | none => s
      stopWebServer shutdownErr (stopLivego s2)
    else s
  (stopFrpc s1).emit Event.wgWait

/-- Whether `Shutdown` has been called on the server `srv`. -/
def Sys.ShutdownCalled (s : Sys) (srv : Nat) : Bool :=
  s.trace.contains (Event.Shutdown srv)

/-- The goroutine started by `startWebServer`, up to the point where it serves. The field
`a.httpServer` is read when the goroutine runs, not when it is started. Library method
`ListenAndServe` returns `http.ErrServerClosed` at once on a server that was shut down,
otherwise it binds `:7180` and serves. The result is `none` when the process ends: a nil
dereference when the field is `nil`, or `log.Fatalf` when `:7180` cannot be bound. -/
def listenAndServeGoroutine (listenOk : String → Bool) (s : Sys) : Option Sys :=
  let s1 := s.emit (Event.log "Starting web server on :7180")
  match s1.app.httpServer with
  | none => none
  | some srv =>
    if s1.ShutdownCalled srv then some s1
    else
      match netListen listenOk ":7180" s1 with
      | (none, _) => none
      | (some _, s2) => some s2

/-- Run one spawned goroutine up to its first blocking receive; `none` when the process
ends. The goroutine of `startLivego` does not look at `ctx` before `runLivego` binds. The
bodies of the dialog, `GetStreamKey`, `RunFrpc` and accept-loop goroutines neither write
to the `App` struct nor end the process and are not followed. -/
def runTask (listenOk : String → Bool) (t : Task) (s : Sys) : Option Sys :=
  match t with
  | Task.livego _ => some (livegoGoroutine listenOk s)
  | Task.ListenAndServe => listenAndServeGoroutine listenOk s
  | _ => some s

/-- What happens next in the process: the GUI calls `StartBackend` or `StopBackend`, or
the scheduler runs the goroutine at position `i` of those waiting, with the outcomes of
`net.Listen` chosen by the operating system. Goroutines are started with `go` and do not
take `a.mu`, so any of them may run before or after a later call. -/
inductive Action where
  | start (shutdownErr : GoError)
  | stop (shutdownErr : GoError)
  | resume (i : Nat) (listenOk : String → Bool)

/-- One action; `none` when the process ends. -/
def step (s : Sys) (a : Action) : Option Sys :=
  match a with
  | Action.start shutdownErr => some (StartBackend shutdownErr s)
  | Action.stop shutdownErr => some (StopBackend shutdownErr s)
  | Action.resume i listenOk =>
    match s.pending.get? i with
    | none => some s
    | some t => runTask listenOk t { s with pending := s.pending.eraseIdx i }

/-- A schedule of actions from a given state. -/
def run (s : Sys) : List Action → Option Sys
  | [] => some s
  | a :: rest =>
    match step s a with
    | none => none
    | some s1 => run s1 rest

/-- Effects performed between state `s` and a later state `t`. -/
def Sys.since (s t : Sys) : List Event :=
  t.trace.drop s.trace.length

/-- Log lines (`log.Println`, `log.Printf`, `log.Print`). -/
def Event.isLog : Event → Bool
  | Event.log _ => true
  | _ => false

/-- Effects that stop something: firing a cancellation token, closing a listener,
shutting the HTTP server down. -/
def Event.isStop : Event → Bool
  | Event.cancel _ => true
  | Event.Close _ => true
  | Event.Shutdown _ => true
  | _ => false

/-- Effects that create a token or start a task: `context.WithCancel`, `wg.Add(1)`, `go`. -/
def Event.isSpawn : Event → Bool
  | Event.WithCancel _ => true
  | Event.wgAdd => true
  | Event.go _ => true
  | _ => false

/-- Stopping the media supervisor: a token is fired or a listener is closed. -/
def Event.isMediaStop : Event → Bool
  | Event.cancel _ => true
  | Event.Close _ => true
  | _ => false

/-- Stopping the edge HTTP server: `http.Server.Shutdown`. -/
def Event.isWebStop : Event → Bool
  | Event.Shutdown _ => true
  | _ => false

/-- In the trace `tr` every effect satisfying `p` happens before every effect
satisfying `q`. -/
def Precedes (p q : Event → Bool) (tr : List Event) : Prop :=
  ∀ (i j : Nat) (e1 e2 : Event), tr[i]? = some e1 → tr[j]? = some e2 → p e1 = true → q e2 = true → i < j

/-- The addresses `net.Listen` is called on, with the outcome, in trace order. -/
def listenAttempts : List Event → List (String × Bool)
  | [] => []
  | Event.Listen addr ok :: es => (addr, ok) :: listenAttempts es
  | _ :: es => listenAttempts es

/-- Specification side of start-up: try the addresses in order and stop after the first
failure. -/
def attemptsUntilFailure (listenOk : String → Bool) : List String → List (String × Bool)
  | [] => []
  | addr :: rest =>
    if listenOk addr then (addr, true) :: attemptsUntilFailure listenOk rest
    else [(addr, false)]

/-- The backend is fully stopped: empty listener registry, no live media token, no
server handle, no live stream-key poll token, not running. -/
def App.stopped (a : App) : Prop :=
  a.livegoListeners = [] ∧ a.livegoCancel = none ∧ a.httpServer = none ∧
    a.streamKeyCancel = none ∧ a.backendIsRunning = false

/-- Names of the sub-servers whose accept loop was started (`go ... Serve(listener)`),
in trace order. -/
def servesStarted : List Event → List String
  | [] => []
  | Event.go (Task.Serve name _) :: es => name :: servesStarted es
  | _ :: es => servesStarted es

/-- Number of successful binds among the attempts. -/
def opened (attempts : List (String × Bool)) : Nat :=
  (attempts.filter (fun a => a.2)).length

/-- Listener handles `first, first + 1, ...` as stored in the registry. -/
def handles (first count : Nat) : List (Option Nat) :=
  (List.range count).map (fun i => some (first + i))

/-! ## Edge HTTP server: the handler tree built by `startWebServer` -/

/-- The part of `*http.Request` the handlers read: `r.URL.Path`. -/
structure Request where
  Path : Str
  deriving DecidableEq, Repr

/-- State of an `http.ResponseWriter`: header map, status code once written, body. -/
structure ResponseWriter where
  header : List (String × String)
  status : Option Nat
  body : Str
  deriving DecidableEq, Repr

/-- Go `http.Handler`: `ServeHTTP(w, r)` as a transformer of the response writer. -/
abbrev Handler := ResponseWriter → Request → ResponseWriter

/-- A response writer nothing has been written to. -/
def ResponseWriter.new : ResponseWriter :=
  { header := [], status := none, body := [] }

/-- Call `w.Header().Set(key, value)`: the value replaces any existing values of the key. -/
def ResponseWriter.SetHeader (w : ResponseWriter) (key value : String) : ResponseWriter :=
  { w with header := (key, value) :: w.header.filter (fun kv => kv.1 != key) }

/-- Call `w.Header().Get(key)`. -/
def ResponseWriter.GetHeader (w : ResponseWriter) (key : String) : Option String :=
  (w.header.find? (fun kv => kv.1 == key)).map (fun kv => kv.2)

/-- Call `w.WriteHeader(code)`: only the first call counts. -/
def ResponseWriter.WriteHeader (w : ResponseWriter) (code : Nat) : ResponseWriter :=
  match w.status with
  | some _ => w
  | none => { w with status := some code }

/-- Call `w.Write(b)`: writes the status `200` first when no status was written. -/
def ResponseWriter.Write (w : ResponseWriter) (b : Str) : ResponseWriter :=
  let w1 := w.WriteHeader 200
  { w1 with body := w1.body ++ b }

/-- Library function `http.Error(w, error, code)`. -/
def httpError (w : ResponseWriter) (error : Str) (code : Nat) : ResponseWriter :=
  let w1 := w.SetHeader "Content-Type" "text/plain; charset=utf-8"
  let w2 := w1.SetHeader "X-Content-Type-Options" "nosniff"
  (w2.WriteHeader code).Write (error ++ [Char.ofNat 10])

/-! ### `path.Clean` of the Go standard library -/

/-- The inner loop of the `..` case of `path.Clean`: after `out.w--` removed `last`, keep
removing while `out.w > dotdot && out.index(out.w) != '/'`. The buffer is kept reversed. -/
def cleanBacktrack (dotdot : Nat) (last : Char) : List Char → List Char
  | [] => []
  | c :: out =>
    if (c :: out).length > dotdot ∧ last ≠ '/' then cleanBacktrack dotdot c out else c :: out

/-- The main loop `for r < n` of `path.Clean`: the unread input, the output buffer
(reversed) and `dotdot`. Every iteration consumes input, so `fuel = n` suffices. -/
def cleanLoop (rooted : Bool) : Nat → List Char → List Char → Nat → List Char
  | 0, _, out, _ => out
  | _ + 1, [], out, _ => out
  | fuel + 1, c :: rest, out, dotdot =>
    if c = '/' then
      cleanLoop rooted fuel rest out dotdot
    else if c = '.' ∧ (rest = [] ∨ rest.head? = some '/') then
      cleanLoop rooted fuel rest out dotdot
    else if c = '.' ∧ rest.head? = some '.' ∧ (rest.tail = [] ∨ rest.tail.head? = some '/') then
      if out.length > dotdot then
        match out with
        | [] => cleanLoop rooted fuel rest.tail out dotdot
        | last :: out1 => cleanLoop rooted fuel rest.tail (cleanBacktrack dotdot last out1) dotdot
      else if !rooted then
        let out1 := if out.length > 0 then '/' :: out else out
        let out2 := '.' :: '.' :: out1
        cleanLoop rooted fuel rest.tail out2 out2.length
      else
        cleanLoop rooted fuel rest.tail out dotdot
    else
      let out1 :=
        if (rooted && out.length != 1) || (!rooted && out.length != 0) then '/' :: out else out
      let elem := (c :: rest).takeWhile (fun x => x != '/')
      cleanLoop rooted fuel ((c :: rest).dropWhile (fun x => x != '/')) (elem.reverse ++ out1) dotdot

/-- Library function `path.Clean`. -/
def pathClean (path : Str) : Str :=
  match path with
  | [] => ['.']
  | c :: rest =>
    let rooted := c == '/'
    let out :=
      if rooted then cleanLoop true path.length rest ['/'] 1
      else cleanLoop false path.length path [] 0
    if out.length = 0 then ['.'] else out.reverse

/-! ### The pattern `<title>(.*?)<\/title>` and `ReplaceAllString` -/

/-- The literal `<title>`. -/
def titleOpen : Str := "<title>".toList

/-- The literal `</title>`. -/
def titleClose : Str := "</title>".toList

/-- The part `(.*?)<\/title>` of the pattern at the head of the text: the shortest run of
characters other than newline that is followed by `</title>`. Returns the captured group
and the text after the match. -/
def matchLazyClose : Str → Option (Str × Str)
  | [] => none
  | c :: cs =>
    if titleClose.isPrefixOf (c :: cs) then some ([], (c :: cs).drop titleClose.length)
    else if c = Char.ofNat 10 then none
    else
      match matchLazyClose cs with
      | some (cap, rest) => some (c :: cap, rest)
      | none => none

/-- A match of the whole pattern starting at the head of the text. -/
def matchTitleAt (s : Str) : Option (Str × Str) :=
  if titleOpen.isPrefixOf s then matchLazyClose (s.drop titleOpen.length) else none

/-- The leftmost match of `titleRegex` in the text: the text before the match, the
captured group, the text after the match. -/
def findTitle : Str → Option (Str × Str × Str)
  | [] => none
  | c :: cs =>
    match matchTitleAt (c :: cs) with
    | some (cap, rest) => some ([], cap, rest)
    | none =>
      match findTitle cs with
      | some (pre, cap, rest) => some (c :: pre, cap, rest)
      | none => none

/-- Library function `strings.Cut(template, "$")`. -/
def cutDollar : Str → Option (Str × Str)
  | [] => none
  | c :: cs =>
    if c = '$' then some ([], cs)
    else
      match cutDollar cs with
      | some (before, after) => some (c :: before, after)
      | none => none

/-- The number parsed from a submatch name by `extract` of package `regexp`: `none` is
`-1`. -/
def extractNum (name : Str) : Option Nat :=
  let num : Option Nat :=
    name.foldl
      (fun acc c =>
        match acc with
        | none => none
        | some n =>
          if c < '0' ∨ '9' < c ∨ n ≥ 100000000 then none else some (n * 10 + (c.toNat - 48)))
      (some 0)
  if name.head? = some '0' ∧ name.length > 1 then none else num

/-- Function `extract` of package `regexp`: the leading `name` or `{name}` of the text after
a `$`: the name, its number, the remaining text; `none` when `ok` is false. `isNameRune r`
stands for `unicode.IsLetter(r) || unicode.IsDigit(r) || r == '_'`. -/
def extract (isNameRune : Char → Bool) (str : Str) : Option (Str × Option Nat × Str) :=
  match str with
  | [] => none
  | c :: cs =>
    let brace := c == '{'
    let str1 := if brace then cs else c :: cs
    let name := str1.takeWhile isNameRune
    let after := str1.dropWhile isNameRune
    if name.length = 0 then none
    else if brace then
      match after with
      | '}' :: rest => some (name, extractNum name, rest)
      | _ => none
    else some (name, extractNum name, after)

/-- Method `expand` of `*regexp.Regexp` for `titleRegex`, which has the submatches `0` (the
whole match) and `1` (the group) and no named group. Every iteration consumes a `$`, so
`fuel = len(template) + 1` suffices. -/
def expand (isNameRune : Char → Bool) (whole group1 : Str) : Nat → Str → Str
  | 0, template => template
  | fuel + 1, template =>
    match cutDollar template with
    | none => template
    | some (before, after) =>
      match after with
      | '$' :: after1 => before ++ '$' :: expand isNameRune whole group1 fuel after1
      | _ =>
        match extract isNameRune after with
        | none => before ++ '$' :: expand isNameRune whole group1 fuel after
        | some (_, num, rest) =>
          let sub : Str :=
            match num with
            | some 0 => whole
            | some 1 => group1
            | _ => []
          before ++ sub ++ expand isNameRune whole group1 fuel rest

/-- Method `replaceAll` of `*regexp.Regexp` for `titleRegex`: the unmatched text is copied,
every match is replaced, and the search goes on after the match. A match is never empty,
so `fuel = len(src) + 1` suffices. -/
def replaceAll (repl : Str → Str → Str) : Nat → Str → Str
  | 0, src => src
  | fuel + 1, src =>
    match findTitle src with
    | none => src
    | some (pre, cap, rest) =>
      pre ++ repl (titleOpen ++ cap ++ titleClose) cap ++ replaceAll repl fuel rest

/-- Call `titleRegex.ReplaceAllString(src, repl)`. -/
def ReplaceAllString (isNameRune : Char → Bool) (src repl : Str) : Str :=
  replaceAll (fun whole group1 => expand isNameRune whole group1 (repl.length + 1) repl)
    (src.length + 1) src

/-- The switch on `reqPath` in the handler: `isHTML` and `htmlPath`. -/
def htmlRoute (reqPath : Str) : Bool × String :=
  if reqPath = "/".toList ∨ reqPath = "/index.html".toList then (true, "index.html")
  else if reqPath = "/flv/".toList ∨ reqPath = "/flv/index.html".toList then (true, "flv/index.html")
  else if reqPath = "/hls/".toList ∨ reqPath = "/hls/index.html".toList then (true, "hls/index.html")
  else (false, "")

/-- The `handler` closure of `startWebServer`. `webFS` is the embedded filesystem rooted
at `build/web` (`fs.ReadFile`), `fileServer` is `http.FileServer(http.FS(webFS))`, `a` is
the `App` struct at the time of the request. -/
def handler (isNameRune : Char → Bool) (fileServer : Handler) (webFS : String → Option Str)
    (a : App) : Handler :=
  fun w r =>
    let reqPath := pathClean r.Path
    let route := htmlRoute reqPath
    if route.1 then
      match webFS route.2 with
      | none => httpError w "File not found".toList 404
      | some content =>
        let title := a.htmlTitle
        let newContent := ReplaceAllString isNameRune content (titleOpen ++ title ++ titleClose)
        (w.SetHeader "Content-Type" "text/html; charset=utf-8").Write newContent
    else fileServer w r

/-- Call `regexp.MustCompile("^/live/").MatchString(s)`: some position of the text is the
beginning of the text and is followed by `/live/`. -/
def liveMatchString (s : Str) : Bool :=
  (List.range (s.length + 1)).any (fun i => i == 0 && "/live/".toList.isPrefixOf (s.drop i))

/-- The `corsHandler` middleware of `startWebServer`. -/
def corsHandler (h : Handler) : Handler :=
  fun w r =>
    let w1 := if liveMatchString r.Path then w.SetHeader "Access-Control-Allow-Origin" "*" else w
    h w1 r

/-- Letters, digits and underscore of the ASCII range. -/
def asciiNameRune (c : Char) : Bool :=
  c.isAlphanum || c == '_'

/-- Number of positions of the text at which `pat` occurs. -/
def countOccurrences (pat : Str) : Str → Nat
  | [] => if pat.isPrefixOf [] then 1 else 0
  | c :: cs => (if pat.isPrefixOf (c :: cs) then 1 else 0) + countOccurrences pat cs

/-! ## Lifecycle: auxiliary lemmas -/

theorem since_append (s t : Sys) (es : List Event) (h : t.trace = s.trace ++ es) :
    s.since t = es := by
  simp [Sys.since, h]

theorem precedes_of_split (p q : Event → Bool) (xs ys : List Event)
    (hx : ∀ e ∈ xs, q e = false) (hy : ∀ e ∈ ys, p e = false) :
    Precedes p q (xs ++ ys) := by
  unfold Precedes
  intro i j e1 e2 h1 h2 hp hq
  by_contra hlt
  push_neg at hlt
  have hi : i < xs.length := by
    by_contra hge
    push_neg at hge
    rw [List.getElem?_append_right hge] at h1
    have := hy e1 (List.getElem?_mem h1)
    simp [hp] at this
  have hj : j < xs.length := lt_of_le_of_lt hlt hi
  rw [List.getElem?_append_left hj] at h2
  have := hx e2 (List.getElem?_mem h2)
  simp [hq] at this

/-! ## Dialog handling -/

/-- C4 (as amended): with `configOK = true`, `beforeClose` prevents the close exactly when
the dialog returns without error an answer other than "Yes"; a dialog error allows the
close, like the answer "Yes". -/
theorem beforeClose_prevent_iff (dlg : DialogResult) (s : Sys) (h : s.app.configOK = true) :
    (beforeClose dlg s).1 = true ↔ dlg.err = none ∧ dlg.dialog ≠ "Yes" := by
  unfold beforeClose
  by_cases he : dlg.err = none <;> by_cases hd : dlg.dialog = "Yes" <;> simp [h, he, hd]

theorem beforeClose_prevent_iff_witness :
    (beforeClose { dialog := "No", err := none } (startup 0 Sys.init)).1 = true ↔
      (none : GoError) = none ∧ "No" ≠ "Yes" :=
  beforeClose_prevent_iff { dialog := "No", err := none } (startup 0 Sys.init) rfl

/-- C4 fails as stated: with `configOK = true` and a dialog error, `beforeClose` returns
`prevent = false`, so the close goes ahead. -/
theorem beforeClose_error_allows_close :
    (startup 0 Sys.init).app.configOK = true ∧
      (beforeClose { dialog := "", err := some "dialog failed" } (startup 0 Sys.init)).1 = false := by
  constructor
  · rfl
  · simp [beforeClose, startup, Sys.init, NewApp]

/-- C5 (as amended): `startFrpc` aborts when `os.IsNotExist` holds of the error of
`os.Stat("frpc.toml")` or the confirmation dialog returns an error or an answer other than
"Yes": the `App` struct (with `frpcCancel`), the spawned goroutines, the handle supply and
the configuration are unchanged and no token is created or task started. A token is created
exactly when `os.IsNotExist` does not hold (the file was found, or `os.Stat` failed with
another error) and the dialog returns "Yes" without error; the token is then stored in
`frpcCancel` and the supervised task is spawned with it. -/
theorem startFrpc_precondition (stat : StatResult) (dlg : DialogResult) (s : Sys) :
    ((stat.IsNotExist = true ∨ dlg.err ≠ none ∨ dlg.dialog ≠ "Yes") →
        (startFrpc stat dlg s).app = s.app ∧ (startFrpc stat dlg s).pending = s.pending ∧
        (startFrpc stat dlg s).fresh = s.fresh ∧ (startFrpc stat dlg s).config = s.config ∧
        (∀ e ∈ s.since (startFrpc stat dlg s), e.isSpawn = false)) ∧
    ((∃ tok, Event.WithCancel tok ∈ s.since (startFrpc stat dlg s)) ↔
        (stat.IsNotExist = false ∧ dlg.err = none ∧ dlg.dialog = "Yes")) ∧
    ((startFrpc stat dlg s).app.frpcCancel ≠ s.app.frpcCancel →
        (stat.IsNotExist = false ∧ dlg.err = none ∧ dlg.dialog = "Yes")) ∧
    ((stat.IsNotExist = false ∧ dlg.err = none ∧ dlg.dialog = "Yes") →
        (startFrpc stat dlg s).app = { s.app with frpcCancel := some s.fresh } ∧
        (startFrpc stat dlg s).pending = s.pending ++ [Task.frpc s.fresh] ∧
        (startFrpc stat dlg s).fresh = s.fresh + 1 ∧
        s.since (startFrpc stat dlg s) =
          [Event.MessageDialog DialogType.QuestionDialog "安全与合规性注意事项",
            Event.WithCancel s.fresh, Event.wgAdd, Event.go (Task.frpc s.fresh)]) := by
  by_cases h1 : stat.IsNotExist = true
  · simp [startFrpc, h1, Sys.emit, Sys.since, Event.isSpawn]
  · by_cases h2 : dlg.err = none
    · by_cases h3 : dlg.dialog = "Yes"
      · simp [startFrpc, h1, h2, h3, Sys.emit, Sys.since, Event.isSpawn, Sys.WithCancel, Sys.go]
      · simp [startFrpc, h1, h2, h3, Sys.emit, Sys.since, Event.isSpawn]
    · simp [startFrpc, h1, h2, Sys.emit, Sys.since, Event.isSpawn]

theorem startFrpc_precondition_witness :
    (startFrpc StatResult.notExist { dialog := "Yes", err := none } Sys.init).app = Sys.init.app ∧
      (startFrpc StatResult.ok { dialog := "Yes", err := none } Sys.init).app =
        { Sys.init.app with frpcCancel := some 0 } :=
  ⟨((startFrpc_precondition StatResult.notExist { dialog := "Yes", err := none } Sys.init).1
    (Or.inl rfl)).1,
   ((startFrpc_precondition StatResult.ok { dialog := "Yes", err := none } Sys.init).2.2.2
    ⟨rfl, rfl, rfl⟩).1⟩

/-- C5 fails as stated: when `os.Stat("frpc.toml")` fails with an error other than "does
not exist" (a symlink loop, a permission error), the file was not found, yet with the
answer "Yes" `startFrpc` creates the token, stores it and spawns the supervised task. -/
theorem startFrpc_stat_error_starts :
    StatResult.otherError.fileExists = false ∧
    (startFrpc StatResult.otherError { dialog := "Yes", err := none } Sys.init).app.frpcCancel =
      some 0 ∧
    (startFrpc StatResult.otherError { dialog := "Yes", err := none } Sys.init).pending =
      [Task.frpc 0] ∧
    Event.WithCancel 0 ∈
      Sys.init.since (startFrpc StatResult.otherError { dialog := "Yes", err := none } Sys.init) := by
  refine ⟨by decide, by decide, by decide, by decide⟩

/-- C7: `startLivego` on a state whose media token is live changes nothing but the log
(same token, same listeners, nothing spawned), and `StartBackend` on a state with
`backendIsRunning = true` changes nothing but the log. -/
theorem start_running_noop (shutdownErr : GoError) (s : Sys) :
    (s.app.livegoCancel ≠ none →
        (startLivego s).app = s.app ∧ (startLivego s).pending = s.pending ∧
        (startLivego s).fresh = s.fresh ∧ (startLivego s).config = s.config ∧
        s.since (startLivego s) = [Event.log "LiveGo is already running."]) ∧
    (s.app.backendIsRunning = true →
        (StartBackend shutdownErr s).app = s.app ∧ (StartBackend shutdownErr s).pending = s.pending ∧
        (StartBackend shutdownErr s).fresh = s.fresh ∧ (StartBackend shutdownErr s).config = s.config ∧
        s.since (StartBackend shutdownErr s) = [Event.log "Backend is already running."]) := by
  constructor
  · intro h
    simp [startLivego, h, Sys.emit, Sys.since]
  · intro h
    simp [StartBackend, h, Sys.emit, Sys.since]

/-! ## Stopping twice -/

theorem iterate_of_idem {α : Type} (f : α → α) (hf : ∀ x, f (f x) = f x) (x : α) (n : Nat)
    (hn : 1 ≤ n) : f^[n] x = f x := by
  induction n with
  | zero => omega
  | succ k ih =>
    rcases Nat.eq_zero_or_pos k with hk | hk
    · subst hk; rfl
    · rw [Function.iterate_succ_apply', ih hk, hf]

theorem stopLivego_stopped (s : Sys) (h1 : s.app.livegoCancel = none)
    (h2 : s.app.livegoListeners = []) : stopLivego s = s := by
  obtain ⟨app, config, trace, pending, fresh⟩ := s
  obtain ⟨c, ok, srv, lc, fc, ls, t, sk, r⟩ := app
  simp only at h1 h2
  subst h1 h2
  simp [stopLivego, closeAll]

theorem stopLivego_idem (s : Sys) : stopLivego (stopLivego s) = stopLivego s := by
  apply stopLivego_stopped
  · unfold stopLivego; cases h : s.app.livegoCancel <;> simp [h]
  · unfold stopLivego; cases h : s.app.livegoCancel <;> simp

theorem stopFrpc_stopped (s : Sys) (h : s.app.frpcCancel = none) : stopFrpc s = s := by
  simp [stopFrpc, h]

theorem stopFrpc_idem (s : Sys) : stopFrpc (stopFrpc s) = stopFrpc s := by
  apply stopFrpc_stopped
  unfold stopFrpc; cases h : s.app.frpcCancel <;> simp [h]

theorem stopWebServer_stopped (shutdownErr : GoError) (s : Sys) (h : s.app.httpServer = none) :
    stopWebServer shutdownErr s = s := by
  simp [stopWebServer, h]

theorem stopWebServer_handle (shutdownErr : GoError) (s : Sys) :
    (stopWebServer shutdownErr s).app.httpServer = none := by
  unfold stopWebServer
  cases h : s.app.httpServer with
  | none => simp [h]
  | some srv => by_cases he : shutdownErr = none <;> simp [he, Sys.emit]

theorem stopWebServer_idem (shutdownErr : GoError) (s : Sys) :
    stopWebServer shutdownErr (stopWebServer shutdownErr s) = stopWebServer shutdownErr s :=
  stopWebServer_stopped _ _ (stopWebServer_handle _ _)

theorem StopBackend_not_running (shutdownErr : GoError) (s : Sys)
    (h : s.app.backendIsRunning = false) :
    StopBackend shutdownErr s = s.emit (Event.log "Backend is not running.") := by
  simp [StopBackend, h]

theorem StopBackend_running_flag (shutdownErr : GoError) (s : Sys) :
    (StopBackend shutdownErr s).app.backendIsRunning = false := by
  by_cases h : s.app.backendIsRunning = true
  · simp [StopBackend, h, Sys.emit]
  · simp only [Bool.not_eq_true] at h
    simp [StopBackend, h, Sys.emit]

theorem StopBackend_iterate (shutdownErr : GoError) (s : Sys) (n : Nat) (hn : 1 ≤ n) :
    ((StopBackend shutdownErr)^[n] s).app = (StopBackend shutdownErr s).app ∧
    ((StopBackend shutdownErr)^[n] s).pending = (StopBackend shutdownErr s).pending ∧
    ((StopBackend shutdownErr)^[n] s).fresh = (StopBackend shutdownErr s).fresh ∧
    ((StopBackend shutdownErr)^[n] s).trace.filter Event.isStop =
      (StopBackend shutdownErr s).trace.filter Event.isStop := by
  induction n with
  | zero => omega
  | succ k ih =>
    rcases Nat.eq_zero_or_pos k with hk | hk
    · subst hk; simp
    · obtain ⟨h1, h2, h3, h4⟩ := ih hk
      have hflag : ((StopBackend shutdownErr)^[k] s).app.backendIsRunning = false := by
        rw [h1]; exact StopBackend_running_flag _ _
      rw [Function.iterate_succ_apply', StopBackend_not_running _ _ hflag]
      simp [Sys.emit, h1, h2, h3, h4, Event.isStop]

/-- C8: a stop on a stopped service changes nothing (`StopBackend` only writes a log line),
and for every state and every `n ≥ 1`, stopping `n` times equals stopping once: the same
state, and the same tokens fired, listeners closed and servers shut down. -/
theorem stop_idempotent (shutdownErr : GoError) (s : Sys) (n : Nat) (hn : 1 ≤ n) :
    (s.app.livegoCancel = none → s.app.livegoListeners = [] → stopLivego s = s) ∧
    (s.app.frpcCancel = none → stopFrpc s = s) ∧
    (s.app.httpServer = none → stopWebServer shutdownErr s = s) ∧
    (s.app.backendIsRunning = false →
      (StopBackend shutdownErr s).app = s.app ∧ (StopBackend shutdownErr s).pending = s.pending ∧
      (StopBackend shutdownErr s).fresh = s.fresh ∧
      s.since (StopBackend shutdownErr s) = [Event.log "Backend is not running."]) ∧
    stopLivego^[n] s = stopLivego s ∧
    stopFrpc^[n] s = stopFrpc s ∧
    (stopWebServer shutdownErr)^[n] s = stopWebServer shutdownErr s ∧
    ((StopBackend shutdownErr)^[n] s).app = (StopBackend shutdownErr s).app ∧
    ((StopBackend shutdownErr)^[n] s).pending = (StopBackend shutdownErr s).pending ∧
    ((StopBackend shutdownErr)^[n] s).fresh = (StopBackend shutdownErr s).fresh ∧
    ((StopBackend shutdownErr)^[n] s).trace.filter Event.isStop =
      (StopBackend shutdownErr s).trace.filter Event.isStop := by
  refine ⟨stopLivego_stopped s, stopFrpc_stopped s, stopWebServer_stopped shutdownErr s, ?_,
    iterate_of_idem _ stopLivego_idem s n hn, iterate_of_idem _ stopFrpc_idem s n hn,
    iterate_of_idem _ (stopWebServer_idem shutdownErr) s n hn,
    StopBackend_iterate shutdownErr s n hn⟩
  intro h
  rw [StopBackend_not_running _ _ h]
  simp [Sys.emit, Sys.since]

/-! ## Order of teardown -/

theorem closeAll_not_web (ls : List (Option Nat)) : ∀ e ∈ closeAll ls, e.isWebStop = false := by
  induction ls with
  | nil => simp [closeAll]
  | cons l ls ih =>
    cases l with
    | none => simpa [closeAll] using ih
    | some x =>
      intro e he
      simp only [closeAll, List.mem_cons] at he
      rcases he with he | he
      · subst he; rfl
      · exact ih e he

theorem closeAll_mem (ls : List (Option Nat)) (l : Nat) (h : some l ∈ ls) :
    Event.Close l ∈ closeAll ls := by
  induction ls with
  | nil => simp at h
  | cons x ls ih =>
    cases x with
    | none =>
      simp only [List.mem_cons] at h
      rcases h with h | h
      · cases h
      · simpa [closeAll] using ih h
    | some y =>
      simp only [List.mem_cons, Option.some.injEq] at h
      rcases h with h | h
      · subst h; simp [closeAll]
      · simp [closeAll, ih h]

theorem stopLivego_effects (s : Sys) :
    ∃ xs, (stopLivego s).trace = s.trace ++ xs ∧ (∀ e ∈ xs, e.isWebStop = false) ∧
      (∀ tok, s.app.livegoCancel = some tok → Event.cancel tok ∈ xs) ∧
      (∀ l, some l ∈ s.app.livegoListeners → Event.Close l ∈ xs) ∧
      (stopLivego s).app.httpServer = s.app.httpServer := by
  cases h : s.app.livegoCancel with
  | none =>
    refine ⟨closeAll s.app.livegoListeners, by simp [stopLivego, h], closeAll_not_web _, by simp,
      fun l hl => closeAll_mem _ l hl, by simp [stopLivego, h]⟩
  | some c =>
    refine ⟨[Event.log "Stopping LiveGo service...", Event.cancel c] ++ closeAll s.app.livegoListeners,
      by simp [stopLivego, h], ?_, by simp, fun l hl => ?_, by simp [stopLivego, h]⟩
    · intro e he
      simp only [List.cons_append, List.nil_append, List.mem_cons] at he
      rcases he with he | he | he
      · subst he; rfl
      · subst he; rfl
      · exact closeAll_not_web _ e he
    · simp [closeAll_mem _ l hl]

theorem stopWebServer_effects (shutdownErr : GoError) (s : Sys) :
    ∃ ys, (stopWebServer shutdownErr s).trace = s.trace ++ ys ∧
      (∀ e ∈ ys, e.isMediaStop = false) ∧
      (∀ srv, s.app.httpServer = some srv → Event.Shutdown srv ∈ ys) := by
  cases h : s.app.httpServer with
  | none => exact ⟨[], by simp [stopWebServer, h], by simp, by simp⟩
  | some srv =>
    by_cases he : shutdownErr = none
    · exact ⟨[Event.log "Stopping web server...", Event.Shutdown srv, Event.log "Web server stopped."],
        by simp [stopWebServer, h, he, Sys.emit], by simp [Event.isMediaStop], by simp⟩
    · exact ⟨[Event.log "Stopping web server...", Event.Shutdown srv,
          Event.log "Web server Shutdown error: %v"],
        by simp [stopWebServer, h, he, Sys.emit], by simp [Event.isMediaStop], by simp⟩

/-- C3 (as amended): on a state with `backendIsRunning = true`, `StopBackend` stops the
media supervisor before the edge HTTP server: every token firing and every listener close
precedes every `Shutdown` of the web server in the trace of effects, the live media token
is fired, every registered listener is closed and the live server is shut down. -/
theorem StopBackend_media_before_web (shutdownErr : GoError) (s : Sys)
    (h : s.app.backendIsRunning = true) :
    Precedes Event.isMediaStop Event.isWebStop (s.since (StopBackend shutdownErr s)) ∧
    (∀ tok, s.app.livegoCancel = some tok →
      Event.cancel tok ∈ s.since (StopBackend shutdownErr s)) ∧
    (∀ l, some l ∈ s.app.livegoListeners →
      Event.Close l ∈ s.since (StopBackend shutdownErr s)) ∧
    (∀ srv, s.app.httpServer = some srv →
      Event.Shutdown srv ∈ s.since (StopBackend shutdownErr s)) := by
  obtain ⟨s1, hs1, htr1, hlc, hls, hsrv⟩ : ∃ s1 : Sys,
      StopBackend shutdownErr s =
        ({ stopWebServer shutdownErr (stopLivego s1) with
            app := { (stopWebServer shutdownErr (stopLivego s1)).app with
              backendIsRunning := false } }).emit (Event.EventsEmit "streamkey:update" ["N/A"]) ∧
      (∃ ks, s1.trace = s.trace ++ ks ∧ ∀ e ∈ ks, e.isWebStop = false) ∧
      s1.app.livegoCancel = s.app.livegoCancel ∧
      s1.app.livegoListeners = s.app.livegoListeners ∧
      s1.app.httpServer = s.app.httpServer := by
    cases hk : s.app.streamKeyCancel with
    | none => exact ⟨s, by simp [StopBackend, h, hk], ⟨[], by simp, by simp⟩, rfl, rfl, rfl⟩
    | some c =>
      exact ⟨{ s with app := { s.app with streamKeyCancel := none },
                      trace := s.trace ++ [Event.cancel c] },
        by simp [StopBackend, h, hk],
        ⟨[Event.cancel c], rfl, by simp [Event.isWebStop]⟩, rfl, rfl, rfl⟩
  obtain ⟨ks, hks, hksw⟩ := htr1
  obtain ⟨xs, hxs, hxw, hxc, hxl, hxsrv⟩ := stopLivego_effects s1
  obtain ⟨ys, hys, hym, hysrv⟩ := stopWebServer_effects shutdownErr (stopLivego s1)
  have hsince : s.since (StopBackend shutdownErr s) =
      (ks ++ xs) ++ (ys ++ [Event.EventsEmit "streamkey:update" ["N/A"]]) := by
    apply since_append
    rw [hs1]
    simp [Sys.emit, hys, hxs, hks]
  rw [hsince]
  refine ⟨precedes_of_split _ _ _ _ ?_ ?_, ?_, ?_, ?_⟩
  · intro e he
    rcases List.mem_append.1 he with he | he
    · exact hksw e he
    · exact hxw e he
  · intro e he
    rcases List.mem_append.1 he with he | he
    · exact hym e he
    · simp only [List.mem_singleton] at he
      subst he; rfl
  · intro tok ht
    have := hxc tok (hlc ▸ ht)
    simp [this]
  · intro l hl
    have := hxl l (hls ▸ hl)
    simp [this]
  · intro srv hs
    have := hysrv srv (by rw [hxsrv, hsrv]; exact hs)
    simp [this]

/-! ## Media start-up -/

theorem runLivego_all_cases (listenOk : String → Bool) (s : Sys) :
    (runLivego listenOk s).app =
        { s.app with
            livegoListeners := (s.app.livegoListeners ++ handles s.fresh
              (opened (attemptsUntilFailure listenOk [":7002", ":7001", ":8090", ":1935"]))) } ∧
    listenAttempts (s.since (runLivego listenOk s)) =
        attemptsUntilFailure listenOk [":7002", ":7001", ":8090", ":1935"] ∧
    servesStarted (s.since (runLivego listenOk s)) =
        (["HLS", "HTTP-FLV", "HTTP-API", "RTMP"]).take
          (opened (attemptsUntilFailure listenOk [":7002", ":7001", ":8090", ":1935"])) := by
  cases h1 : listenOk ":7002" <;> cases h2 : listenOk ":7001" <;>
    cases h3 : listenOk ":8090" <;> cases h4 : listenOk ":1935" <;>
    simp [runLivego, runLivegoLoop, runLivegoApp, apps, startHls, startHTTPFlv, startAPI, startRtmp,
      netListen, Sys.ConfigSet, Sys.GetString, Sys.emit, Sys.go, Sys.register, Sys.since,
      attemptsUntilFailure, opened, handles, listenAttempts, servesStarted, h1, h2, h3, h4,
      List.range_succ]

/-- C9: `runLivego` calls `net.Listen` on HLS `:7002`, FLV `:7001`, API `:8090` and
ingest (RTMP) `:1935` in this order and stops after the first failure; the listeners opened
before the failure stay appended to `livegoListeners` and only their accept loops run. When
the HLS bind fails nothing is registered and nothing else is attempted; when all four
binds succeed exactly four listeners are registered. -/
theorem runLivego_failure_semantics (listenOk : String → Bool) (s : Sys) :
    listenAttempts (s.since (runLivego listenOk s)) =
        attemptsUntilFailure listenOk [":7002", ":7001", ":8090", ":1935"] ∧
    (runLivego listenOk s).app.livegoListeners =
        s.app.livegoListeners ++ handles s.fresh
          (opened (attemptsUntilFailure listenOk [":7002", ":7001", ":8090", ":1935"])) ∧
    servesStarted (s.since (runLivego listenOk s)) =
        (["HLS", "HTTP-FLV", "HTTP-API", "RTMP"]).take
          (opened (attemptsUntilFailure listenOk [":7002", ":7001", ":8090", ":1935"])) ∧
    (listenOk ":7002" = false →
        (runLivego listenOk s).app.livegoListeners = s.app.livegoListeners ∧
        listenAttempts (s.since (runLivego listenOk s)) = [(":7002", false)] ∧
        servesStarted (s.since (runLivego listenOk s)) = []) ∧
    (listenOk ":7002" = true → listenOk ":7001" = true → listenOk ":8090" = true →
      listenOk ":1935" = true →
        (runLivego listenOk s).app.livegoListeners =
          s.app.livegoListeners ++
            [some s.fresh, some (s.fresh + 1), some (s.fresh + 2), some (s.fresh + 3)] ∧
        listenAttempts (s.since (runLivego listenOk s)) =
          [(":7002", true), (":7001", true), (":8090", true), (":1935", true)]) := by
  obtain ⟨happ, hatt, hserve⟩ := runLivego_all_cases listenOk s
  refine ⟨hatt, by rw [happ], hserve, ?_, ?_⟩
  · intro h
    rw [happ, hatt, hserve]
    simp [attemptsUntilFailure, h, opened, handles]
  · intro h1 h2 h3 h4
    rw [happ, hatt]
    simp [attemptsUntilFailure, h1, h2, h3, h4, opened, handles, List.range_succ]

theorem runLivego_failure_semantics_witness :
    (runLivego (fun addr => addr != ":7002") Sys.init).app.livegoListeners = [] ∧
    (runLivego (fun _ => true) Sys.init).app.livegoListeners = [some 0, some 1, some 2, some 3] :=
  ⟨((runLivego_failure_semantics (fun addr => addr != ":7002") Sys.init).2.2.2.1 (by decide)).1,
   ((runLivego_failure_semantics (fun _ => true) Sys.init).2.2.2.2 rfl rfl rfl rfl).1⟩

/-! ## Full cycle -/

theorem livegoGoroutine_app (listenOk : String → Bool) (s : Sys) :
    (livegoGoroutine listenOk s).app.backendIsRunning = s.app.backendIsRunning := by
  unfold livegoGoroutine
  rw [(runLivego_all_cases listenOk _).1]
  simp [Sys.emit]

theorem StartBackend_running (shutdownErr : GoError) (s : Sys) :
    (StartBackend shutdownErr s).app.backendIsRunning = true := by
  cases hr : s.app.backendIsRunning with
  | true => simp [StartBackend, hr, Sys.emit]
  | false => simp [StartBackend, hr, Sys.go, Sys.emit, Sys.WithCancel]

theorem StopBackend_stopped (shutdownErr : GoError) (s : Sys)
    (hr : s.app.backendIsRunning = true) : (StopBackend shutdownErr s).app.stopped := by
  unfold StopBackend stopLivego stopWebServer App.stopped
  cases h1 : s.app.streamKeyCancel <;> cases h2 : s.app.livegoCancel <;>
    cases h3 : s.app.httpServer <;> by_cases he : shutdownErr = none <;>
    simp [hr, h1, h2, h3, he, Sys.emit]

theorem StopBackend_pending (shutdownErr : GoError) (s : Sys) :
    (StopBackend shutdownErr s).pending = s.pending := by
  unfold StopBackend stopLivego stopWebServer
  cases h0 : s.app.backendIsRunning <;> cases h1 : s.app.streamKeyCancel <;>
    cases h2 : s.app.livegoCancel <;> cases h3 : s.app.httpServer <;>
    by_cases he : shutdownErr = none <;> simp [h1, h2, h3, he, Sys.emit]

/-- C10: the schedule `StartBackend`, `StopBackend`, then the goroutine of `startLivego`
(all four binds succeed), then `StopBackend` again. The goroutine binds after `stopLivego`
has cleared the registry, and the final `StopBackend` returns at its `backendIsRunning`
guard: the run ends with four listeners registered, so the backend is not stopped. When
the goroutine of `startWebServer` is the one that runs late, it finds `a.httpServer` nil
and the process ends. -/
theorem late_bind_leaks_listeners :
    (run Sys.init [Action.start none, Action.stop none, Action.resume 1 (fun _ => true),
        Action.stop none]).map (fun s => s.app) =
      some { NewApp with livegoListeners := [some 3, some 4, some 5, some 6] } ∧
    (run Sys.init [Action.start none, Action.stop none,
        Action.resume 1 (fun _ => true)]).map (fun s => s.app) =
      some { NewApp with livegoListeners := [some 3, some 4, some 5, some 6] } ∧
    ¬ App.stopped { NewApp with livegoListeners := [some 3, some 4, some 5, some 6] } ∧
    (run Sys.init [Action.start none, Action.resume 1 (fun _ => true),
        Action.stop none]).map (fun s => s.app) = some NewApp ∧
    run Sys.init [Action.start none, Action.stop none, Action.resume 2 (fun _ => true)] = none := by
  refine ⟨by decide, by decide, ?_, by decide, by decide⟩
  intro h
  exact absurd h.1 (by decide)

/-! ## Concrete runs -/

/-- C3 fails as stated: after one `StartBackend` with all binds succeeding, `StopBackend`
fires the media token (effect 2) and closes the four media listeners before it shuts the
web server down (effect 8), so the web-server shutdown does not precede them. -/
theorem StopBackend_web_not_first :
    (livegoGoroutine (fun _ => true) (StartBackend none Sys.init)).app.backendIsRunning = true ∧
    (livegoGoroutine (fun _ => true) (StartBackend none Sys.init)).since
        (StopBackend none (livegoGoroutine (fun _ => true) (StartBackend none Sys.init))) =
      [Event.cancel 2, Event.log "Stopping LiveGo service...", Event.cancel 0,
        Event.Close 3, Event.Close 4, Event.Close 5, Event.Close 6,
        Event.log "Stopping web server...", Event.Shutdown 1, Event.log "Web server stopped.",
        Event.EventsEmit "streamkey:update" ["N/A"]] ∧
    ¬ Precedes Event.isWebStop Event.isMediaStop
        ((livegoGoroutine (fun _ => true) (StartBackend none Sys.init)).since
          (StopBackend none (livegoGoroutine (fun _ => true) (StartBackend none Sys.init)))) := by
  refine ⟨by decide, by decide, fun h => ?_⟩
  have := h 8 2 (Event.Shutdown 1) (Event.cancel 0) (by decide) (by decide) rfl rfl
  omega

theorem StopBackend_media_before_web_witness :
    Precedes Event.isMediaStop Event.isWebStop
      ((livegoGoroutine (fun _ => true) (StartBackend none Sys.init)).since
        (StopBackend none (livegoGoroutine (fun _ => true) (StartBackend none Sys.init)))) :=
  (StopBackend_media_before_web none (livegoGoroutine (fun _ => true) (StartBackend none Sys.init))
    (by decide)).1

theorem start_running_noop_witness :
    (startLivego (livegoGoroutine (fun _ => true) (StartBackend none Sys.init))).app =
      (livegoGoroutine (fun _ => true) (StartBackend none Sys.init)).app ∧
    (StartBackend none (livegoGoroutine (fun _ => true) (StartBackend none Sys.init))).app =
      (livegoGoroutine (fun _ => true) (StartBackend none Sys.init)).app :=
  ⟨((start_running_noop none (livegoGoroutine (fun _ => true) (StartBackend none Sys.init))).1 (by decide)).1,
   ((start_running_noop none (livegoGoroutine (fun _ => true) (StartBackend none Sys.init))).2 (by decide)).1⟩

theorem stop_idempotent_witness :
    1 ≤ 3 ∧
    stopLivego^[3] (livegoGoroutine (fun _ => true) (StartBackend none Sys.init)) =
      stopLivego (livegoGoroutine (fun _ => true) (StartBackend none Sys.init)) ∧
    ((StopBackend none)^[3] (livegoGoroutine (fun _ => true) (StartBackend none Sys.init))).app =
      (StopBackend none (livegoGoroutine (fun _ => true) (StartBackend none Sys.init))).app :=
  ⟨by decide,
   (stop_idempotent none (livegoGoroutine (fun _ => true) (StartBackend none Sys.init)) 3 (by decide)).2.2.2.2.1,
   (stop_idempotent none (livegoGoroutine (fun _ => true) (StartBackend none Sys.init)) 3
      (by decide)).2.2.2.2.2.2.2.1⟩

/-! ## Edge HTTP server: title rewriting -/

theorem cutDollar_of_not_mem (t : Str) (h : '$' ∉ t) : cutDollar t = none := by
  induction t with
  | nil => rfl
  | cons c cs ih =>
    simp only [List.mem_cons, not_or] at h
    have hc : c ≠ '$' := fun e => h.1 e.symm
    simp [cutDollar, hc, ih h.2]

theorem expand_of_not_mem (isNameRune : Char → Bool) (whole group1 : Str) (fuel : Nat) (t : Str)
    (h : '$' ∉ t) : expand isNameRune whole group1 fuel t = t := by
  cases fuel with
  | zero => rfl
  | succ n => simp [expand, cutDollar_of_not_mem t h]

theorem matchLazyClose_spec (s cap rest : Str) (h : matchLazyClose s = some (cap, rest)) :
    s = cap ++ titleClose ++ rest := by
  induction s generalizing cap with
  | nil => simp [matchLazyClose] at h
  | cons c cs ih =>
    unfold matchLazyClose at h
    by_cases hp : titleClose.isPrefixOf (c :: cs) = true
    · simp only [hp, if_true, Option.some.injEq, Prod.mk.injEq] at h
      obtain ⟨h1, h2⟩ := h
      subst h1 h2
      have := List.prefix_iff_eq_append.1 (List.isPrefixOf_iff_prefix.1 hp)
      simpa using this.symm
    · simp only [hp, Bool.false_eq_true, if_false] at h
      by_cases hn : c = Char.ofNat 10
      · simp [hn] at h
      · simp only [hn, if_false] at h
        cases hrec : matchLazyClose cs with
        | none => simp [hrec] at h
        | some p =>
          obtain ⟨cap1, rest1⟩ := p
          simp only [hrec, Option.some.injEq, Prod.mk.injEq] at h
          obtain ⟨h1, h2⟩ := h
          subst h1 h2
          have := ih cap1 hrec
          simp [this]

theorem matchTitleAt_spec (s cap rest : Str) (h : matchTitleAt s = some (cap, rest)) :
    s = titleOpen ++ cap ++ titleClose ++ rest := by
  unfold matchTitleAt at h
  by_cases hp : titleOpen.isPrefixOf s = true
  · simp only [hp, if_true] at h
    have h1 := matchLazyClose_spec _ cap rest h
    have h2 := List.prefix_iff_eq_append.1 (List.isPrefixOf_iff_prefix.1 hp)
    rw [← h2, h1]
    simp
  · simp [hp] at h

theorem findTitle_spec (s pre cap rest : Str) (h : findTitle s = some (pre, cap, rest)) :
    s = pre ++ titleOpen ++ cap ++ titleClose ++ rest := by
  induction s generalizing pre with
  | nil => simp [findTitle] at h
  | cons c cs ih =>
    unfold findTitle at h
    cases hm : matchTitleAt (c :: cs) with
    | some p =>
      obtain ⟨cap1, rest1⟩ := p
      simp only [hm, Option.some.injEq, Prod.mk.injEq] at h
      obtain ⟨h1, h2, h3⟩ := h
      subst h1 h2 h3
      simpa using matchTitleAt_spec _ _ _ hm
    | none =>
      simp only [hm] at h
      cases hrec : findTitle cs with
      | none => simp [hrec] at h
      | some p =>
        obtain ⟨pre1, cap1, rest1⟩ := p
        simp only [hrec, Option.some.injEq, Prod.mk.injEq] at h
        obtain ⟨h1, h2, h3⟩ := h
        subst h1 h2 h3
        have := ih pre1 hrec
        simp [this]

theorem ReplaceAllString_one_match (isNameRune : Char → Bool) (src repl pre cap post : Str)
    (hrepl : '$' ∉ repl) (h1 : findTitle src = some (pre, cap, post))
    (h2 : findTitle post = none) :
    ReplaceAllString isNameRune src repl = pre ++ repl ++ post := by
  unfold ReplaceAllString
  cases src with
  | nil => simp [findTitle] at h1
  | cons c cs =>
    simp [replaceAll, h1, h2, expand_of_not_mem _ _ _ _ _ hrepl]

theorem pathClean_root : pathClean "/".toList = "/".toList := by decide

theorem htmlRoute_root : htmlRoute "/".toList = (true, "index.html") := by decide

/-! ### Counting the occurrences of the new title -/

theorem titleTag_shape (X : Str) :
    titleOpen ++ X ++ titleClose = '<' :: (("title>".toList ++ X) ++ '<' :: "/title>".toList) := by
  simp [titleOpen, titleClose]

theorem countOccurrences_skip (a : Char) (pat A t : Str) (hA : ∀ c ∈ A, c ≠ a) :
    countOccurrences (a :: pat) (A ++ t) = countOccurrences (a :: pat) t := by
  induction A with
  | nil => rfl
  | cons c A ih =>
    have hc : a ≠ c := fun e => hA c (List.mem_cons_self _ _) e.symm
    have := ih (fun x hx => hA x (List.mem_cons_of_mem _ hx))
    simp [countOccurrences, hc, this]

theorem matchLazyClose_of_starts (t : Str) (h : titleClose <+: t) : (matchLazyClose t).isSome := by
  cases t with
  | nil => simp [titleClose] at h
  | cons c cs =>
    have hp : titleClose.isPrefixOf (c :: cs) = true := List.isPrefixOf_iff_prefix.2 h
    rw [matchLazyClose, if_pos hp]
    rfl

theorem matchLazyClose_append (X t : Str) (hX : Char.ofNat 10 ∉ X)
    (ht : (matchLazyClose t).isSome) : (matchLazyClose (X ++ t)).isSome := by
  induction X with
  | nil => exact ht
  | cons x X ih =>
    simp only [List.mem_cons, not_or] at hX
    have hx : x ≠ Char.ofNat 10 := fun e => hX.1 e.symm
    have hrec := ih hX.2
    rw [List.cons_append]
    generalize X ++ t = u at hrec
    rw [matchLazyClose]
    by_cases hp : titleClose.isPrefixOf (x :: u) = true
    · rw [if_pos hp]; rfl
    · rw [if_neg hp, if_neg hx]
      cases hm : matchLazyClose u with
      | none => rw [hm] at hrec; exact absurd hrec (by simp)
      | some p => rfl

theorem matchTitleAt_of_starts (X t : Str) (hX : Char.ofNat 10 ∉ X)
    (h : titleOpen ++ X ++ titleClose <+: t) : (matchTitleAt t).isSome := by
  obtain ⟨u, rfl⟩ := h
  have hp : titleOpen.isPrefixOf (titleOpen ++ X ++ titleClose ++ u) = true :=
    List.isPrefixOf_iff_prefix.2 ⟨X ++ titleClose ++ u, by simp⟩
  have hd : (titleOpen ++ X ++ titleClose ++ u).drop titleOpen.length = X ++ (titleClose ++ u) := by
    simp
  rw [matchTitleAt, if_pos hp, hd]
  exact matchLazyClose_append X _ hX (matchLazyClose_of_starts _ (List.prefix_append _ _))

theorem countOccurrences_of_findTitle_none (X t : Str) (hX : Char.ofNat 10 ∉ X)
    (h : findTitle t = none) : countOccurrences (titleOpen ++ X ++ titleClose) t = 0 := by
  induction t with
  | nil => simp [countOccurrences, titleOpen]
  | cons c cs ih =>
    rw [findTitle] at h
    cases hm : matchTitleAt (c :: cs) with
    | some p => rw [hm] at h; simp at h
    | none =>
      rw [hm] at h
      have hcs : findTitle cs = none := by
        cases hf : findTitle cs with
        | none => rfl
        | some q => rw [hf] at h; simp at h
      have hnp : (titleOpen ++ X ++ titleClose).isPrefixOf (c :: cs) = false := by
        cases hb : (titleOpen ++ X ++ titleClose).isPrefixOf (c :: cs) with
        | false => rfl
        | true =>
          have := matchTitleAt_of_starts X (c :: cs) hX (List.isPrefixOf_iff_prefix.1 hb)
          rw [hm] at this
          simp at this
      rw [countOccurrences, hnp, ih hcs]
      rfl

theorem titleOpen_cons : titleOpen = '<' :: "title>".toList := rfl

theorem titleClose_cons : titleClose = '<' :: "/title>".toList := rfl

theorem countOccurrences_cons (pat : Str) (c : Char) (cs : Str) :
    countOccurrences pat (c :: cs) =
      (if pat.isPrefixOf (c :: cs) then 1 else 0) + countOccurrences pat cs := rfl

theorem countOccurrences_append_of_no_match (pat u t : Str)
    (h : ∀ p r, p ++ r = u → r ≠ [] → ¬ pat <+: r ++ t) :
    countOccurrences pat (u ++ t) = countOccurrences pat t := by
  induction u with
  | nil => rfl
  | cons c u ih =>
    have hnp : pat.isPrefixOf (c :: (u ++ t)) = false := by
      cases hb : pat.isPrefixOf (c :: (u ++ t)) with
      | false => rfl
      | true => exact absurd (List.isPrefixOf_iff_prefix.1 hb) (h [] (c :: u) rfl (by simp))
    rw [List.cons_append, countOccurrences_cons, hnp,
      ih (fun p r hpr hr => h (c :: p) r (by rw [List.cons_append, hpr]) hr)]
    simp

theorem countOccurrences_pos (pat a b : Str) : 0 < countOccurrences pat (a ++ (pat ++ b)) := by
  induction a with
  | nil =>
    have hp : pat.isPrefixOf (pat ++ b) = true :=
      List.isPrefixOf_iff_prefix.2 (List.prefix_append _ _)
    rw [List.nil_append]
    generalize pat ++ b = u at hp
    cases u with
    | nil => rw [countOccurrences, if_pos hp]; exact Nat.one_pos
    | cons c cs => rw [countOccurrences, if_pos hp]; exact Nat.lt_of_lt_of_le Nat.one_pos (Nat.le_add_right _ _)
  | cons c a ih =>
    rw [List.cons_append, countOccurrences_cons]
    exact Nat.lt_of_lt_of_le ih (Nat.le_add_left _ _)

theorem matchTitleAt_open (u : Str) : matchTitleAt (titleOpen ++ u) = matchLazyClose u := by
  have hp : titleOpen.isPrefixOf (titleOpen ++ u) = true :=
    List.isPrefixOf_iff_prefix.2 (List.prefix_append _ _)
  rw [matchTitleAt, if_pos hp, List.drop_left]

theorem findTitle_match (s pre cap post : Str) (h : findTitle s = some (pre, cap, post)) :
    (matchLazyClose (cap ++ titleClose ++ post)).isSome := by
  induction s generalizing pre with
  | nil => simp [findTitle] at h
  | cons c cs ih =>
    rw [findTitle] at h
    cases hm : matchTitleAt (c :: cs) with
    | some q =>
      obtain ⟨cap1, rest1⟩ := q
      simp only [hm, Option.some.injEq, Prod.mk.injEq] at h
      obtain ⟨_, h2, h3⟩ := h
      subst h2 h3
      have hs := matchTitleAt_spec _ _ _ hm
      rw [hs, List.append_assoc, List.append_assoc, matchTitleAt_open] at hm
      rw [List.append_assoc, hm]
      rfl
    | none =>
      rw [hm] at h
      cases hf : findTitle cs with
      | none => rw [hf] at h; simp at h
      | some q =>
        obtain ⟨pre1, cap1, rest1⟩ := q
        simp only [hf, Option.some.injEq, Prod.mk.injEq] at h
        obtain ⟨_, h2, h3⟩ := h
        subst h2 h3
        exact ih pre1 hf

theorem findTitle_no_earlier_match (s pre cap post : Str)
    (h : findTitle s = some (pre, cap, post)) (p r : Str) (hpr : p ++ r = pre) (hr : r ≠ []) :
    matchTitleAt (r ++ (titleOpen ++ cap ++ titleClose ++ post)) = none := by
  induction s generalizing pre p with
  | nil => simp [findTitle] at h
  | cons c cs ih =>
    rw [findTitle] at h
    cases hm : matchTitleAt (c :: cs) with
    | some q =>
      obtain ⟨cap1, rest1⟩ := q
      simp only [hm, Option.some.injEq, Prod.mk.injEq] at h
      obtain ⟨h1, _, _⟩ := h
      subst h1
      simp only [List.append_eq_nil] at hpr
      exact absurd hpr.2 hr
    | none =>
      rw [hm] at h
      cases hf : findTitle cs with
      | none => rw [hf] at h; simp at h
      | some q =>
        obtain ⟨pre1, cap1, rest1⟩ := q
        simp only [hf, Option.some.injEq, Prod.mk.injEq] at h
        obtain ⟨h1, h2, h3⟩ := h
        subst h1 h2 h3
        have hcs := findTitle_spec cs pre1 cap1 rest1 hf
        cases p with
        | nil =>
          simp only [List.nil_append] at hpr
          subst hpr
          rw [hcs] at hm
          simpa using hm
        | cons c1 p1 =>
          simp only [List.cons_append, List.cons.injEq] at hpr
          exact ih pre1 hf p1 hpr.2

theorem titleTag_straddle_match (X cap post r : Str) (hX : Char.ofNat 10 ∉ X) (hr : r ≠ [])
    (h : titleOpen ++ X ++ titleClose <+: r ++ ((titleOpen ++ X ++ titleClose) ++ post))
    (hm : (matchLazyClose (cap ++ titleClose ++ post)).isSome) :
    (matchTitleAt (r ++ (titleOpen ++ cap ++ titleClose ++ post))).isSome := by
  rcases List.prefix_or_prefix_of_prefix h (List.prefix_append r _) with h1 | h1
  · exact matchTitleAt_of_starts X _ hX (h1.trans (List.prefix_append _ _))
  · obtain ⟨r2, hr2⟩ := h1
    have h2 : r ++ r2 <+: r ++ ((titleOpen ++ X ++ titleClose) ++ post) := by
      rw [hr2]; exact h
    have h3 : r2 <+: (titleOpen ++ X ++ titleClose) ++ post :=
      (List.prefix_append_right_inj r).1 h2
    rw [List.append_assoc] at hr2
    have hopen : ∃ c1, r = titleOpen ++ c1 ∧ X ++ titleClose = c1 ++ r2 := by
      rcases List.append_eq_append_iff.1 hr2 with ⟨a1, h4, h5⟩ | ⟨c1, h4, h5⟩
      · cases a1 with
        | nil => exact ⟨[], by simpa using h4.symm, by simpa using h5.symm⟩
        | cons x a2 =>
          exfalso
          obtain ⟨r0, r1, rfl⟩ := List.exists_cons_of_ne_nil hr
          rw [titleOpen_cons] at h4
          simp only [List.cons_append, List.cons.injEq] at h4
          have hx : x ∈ "title>".toList := by rw [h4.2]; simp
          rw [h5, titleOpen_cons] at h3
          simp only [List.cons_append, List.cons_prefix_cons] at h3
          have hx2 : x = '<' := h3.1
          subst hx2
          exact absurd hx (by decide)
      · exact ⟨c1, h4, h5⟩
    obtain ⟨c1, hc1, hc2⟩ := hopen
    have hnl : Char.ofNat 10 ∉ c1 ++ titleOpen := by
      intro hmem
      rcases List.mem_append.1 hmem with hmem | hmem
      · have : Char.ofNat 10 ∈ X ++ titleClose := by
          rw [hc2]; exact List.mem_append_left _ hmem
        rcases List.mem_append.1 this with h6 | h6
        · exact hX h6
        · revert h6; decide
      · revert hmem; decide
    have hshape : r ++ (titleOpen ++ cap ++ titleClose ++ post) =
        titleOpen ++ ((c1 ++ titleOpen) ++ (cap ++ titleClose ++ post)) := by
      rw [hc1]; simp
    rw [hshape, matchTitleAt_open]
    exact matchLazyClose_append _ _ hnl hm

theorem titleTag_border_shape (Z r p q : Str) (hr : r ≠ [])
    (h1 : r ++ q = titleOpen ++ Z ++ titleClose) (h2 : p ++ r = titleOpen ++ Z ++ titleClose) :
    ∃ Z1, r = titleOpen ++ Z1 ++ titleClose := by
  obtain ⟨r0, r1, rfl⟩ := List.exists_cons_of_ne_nil hr
  have hr0 : r0 = '<' := by
    have h1c := h1
    rw [titleOpen_cons] at h1c
    simp only [List.cons_append, List.cons.injEq] at h1c
    exact h1c.1
  subst hr0
  rcases List.append_eq_append_iff.1 h2 with ⟨a1, h3, h4⟩ | ⟨c1, h3, h4⟩
  · rw [h4, List.append_assoc, List.append_assoc] at h1
    rcases List.append_eq_append_iff.1 h1 with ⟨a2, h5, h6⟩ | ⟨c2, h5, h6⟩
    · cases a2 with
      | nil => exact ⟨[], by rw [h4, h5]; simp⟩
      | cons x a3 =>
        exfalso
        rw [titleClose_cons] at h6
        simp only [List.cons_append, List.cons.injEq] at h6
        obtain ⟨hx, h6⟩ := h6
        subst hx
        cases a1 with
        | nil =>
          rw [titleOpen_cons] at h5
          simp only [List.nil_append, List.cons.injEq, true_and] at h5
          subst h5
          simp at h6
        | cons y a4 =>
          rw [titleOpen_cons] at h5
          simp only [List.cons_append, List.cons.injEq] at h5
          have hmem : '<' ∈ "title>".toList := by rw [h5.2]; simp
          exact absurd hmem (by decide)
    · exact ⟨c2, by rw [h4, h5]⟩
  · exfalso
    cases c1 with
    | nil =>
      simp only [List.nil_append] at h4
      rw [← h4, titleClose_cons, titleOpen_cons] at h1
      simp at h1
    | cons y c2 =>
      rw [titleClose_cons] at h4
      simp only [List.cons_append, List.cons.injEq] at h4
      have hmem : '<' ∈ "/title>".toList := by rw [h4.2]; simp
      exact absurd hmem (by decide)

theorem titleTag_border (n : Nat) : ∀ (S r q p Z : Str), S.length ≤ n →
    S = titleOpen ++ Z ++ titleClose → r ++ q = S → p ++ r = S → r ≠ [] → q ≠ [] →
    ∃ a Z1 b, q = a ++ (titleOpen ++ Z1 ++ titleClose) ++ b ∧ ∀ c ∈ Z1, c ∈ S := by
  induction n with
  | zero =>
    intro S r q p Z hlen hS
    rw [hS, titleOpen_cons] at hlen
    simp at hlen
  | succ n ih =>
    intro S r q p Z hlen hS h1 h2 hr hq
    obtain ⟨Z1, hZ1⟩ := titleTag_border_shape Z r p q hr (h1.trans hS) (h2.trans hS)
    have hrS : ∀ c ∈ r, c ∈ S := by
      intro c hc
      rw [← h1]; exact List.mem_append_left _ hc
    have hZ1r : ∀ c ∈ Z1, c ∈ r := by
      intro c hc
      rw [hZ1]; simp [hc]
    rcases List.append_eq_append_iff.1 (h1.trans h2.symm) with ⟨a1, _, h4⟩ | ⟨c1, h3, h4⟩
    · exact ⟨a1, Z1, [], by rw [h4, hZ1]; simp, fun c hc => hrS c (hZ1r c hc)⟩
    · by_cases hc1 : c1 = []
      · subst hc1
        simp only [List.nil_append] at h4
        exact ⟨[], Z1, [], by rw [← h4, hZ1]; simp, fun c hc => hrS c (hZ1r c hc)⟩
      · have hlen2 : r.length ≤ n := by
          have hq2 : 0 < q.length := List.length_pos.2 hq
          have := congrArg List.length h1
          simp only [List.length_append] at this
          omega
        obtain ⟨a, Z2, b, hq3, hZ2⟩ := ih r c1 q p Z1 hlen2 hZ1 h4.symm h3.symm hc1 hq
        exact ⟨a, Z2, b, hq3, fun c hc => hrS c (hZ2 c hc)⟩

theorem countOccurrences_titleTag_self (X post : Str) (hX : Char.ofNat 10 ∉ X)
    (h : findTitle post = none) :
    countOccurrences (titleOpen ++ X ++ titleClose) ((titleOpen ++ X ++ titleClose) ++ post) = 1 := by
  have hS : ∀ c ∈ titleOpen ++ X ++ titleClose, c ≠ Char.ofNat 10 := by
    intro c hc e
    subst e
    rcases List.mem_append.1 hc with h1 | h1
    · rcases List.mem_append.1 h1 with h2 | h2
      · revert h2; decide
      · exact hX h2
    · revert h1; decide
  have hself : (titleOpen ++ X ++ titleClose).isPrefixOf
      ((titleOpen ++ X ++ titleClose) ++ post) = true :=
    List.isPrefixOf_iff_prefix.2 (List.prefix_append _ _)
  have hpost := countOccurrences_of_findTitle_none X post hX h
  generalize hSd : titleOpen ++ X ++ titleClose = S at hS hself hpost
  cases S with
  | nil => rw [titleOpen_cons] at hSd; simp at hSd
  | cons s0 S1 =>
    rw [List.cons_append, countOccurrences_cons, ← List.cons_append, hself,
      countOccurrences_append_of_no_match _ S1 post ?_, hpost]
    · rfl
    intro p r hpr hr hpre
    rcases List.prefix_or_prefix_of_prefix hpre (List.prefix_append r post) with h1 | h1
    · have hl := h1.length_le
      have := congrArg List.length hpr
      simp only [List.length_append, List.length_cons] at this hl
      omega
    · obtain ⟨q, hq⟩ := h1
      have hqne : q ≠ [] := by
        intro e
        subst e
        have := congrArg List.length hq
        have := congrArg List.length hpr
        simp only [List.length_append, List.length_cons, List.length_nil] at *
        omega
      have hqpost : q <+: post := by
        have h2 : r ++ q <+: r ++ post := by rw [hq]; exact hpre
        exact (List.prefix_append_right_inj r).1 h2
      obtain ⟨a, Z1, b, hq3, hZ1⟩ := titleTag_border (s0 :: S1).length (s0 :: S1) r q (s0 :: p) X
        (Nat.le_refl _) hSd.symm hq (by rw [List.cons_append, hpr]) hr hqne
      obtain ⟨rest, hrest⟩ := hqpost
      have hZ1nl : Char.ofNat 10 ∉ Z1 := fun hmem => hS _ (hZ1 _ hmem) rfl
      have hzero := countOccurrences_of_findTitle_none Z1 post hZ1nl h
      have hpos := countOccurrences_pos (titleOpen ++ Z1 ++ titleClose) a (b ++ rest)
      have hpost2 : post = a ++ ((titleOpen ++ Z1 ++ titleClose) ++ (b ++ rest)) := by
        rw [← hrest, hq3]; simp
      rw [← hpost2, hzero] at hpos
      exact absurd hpos (Nat.lt_irrefl 0)

theorem countOccurrences_titleTag (X cap post : Str) (hX : Char.ofNat 10 ∉ X)
    (src pre : Str) (h1 : findTitle src = some (pre, cap, post)) (h2 : findTitle post = none) :
    countOccurrences (titleOpen ++ X ++ titleClose)
      (pre ++ (titleOpen ++ X ++ titleClose) ++ post) = 1 := by
  rw [List.append_assoc pre, countOccurrences_append_of_no_match _ pre _ ?_,
    countOccurrences_titleTag_self X post hX h2]
  intro p r hpr hr hpre
  have hm := titleTag_straddle_match X cap post r hX hr hpre (findTitle_match src pre cap post h1)
  rw [findTitle_no_earlier_match src pre cap post h1 p r hpr hr] at hm
  simp at hm


/-- C1 (as amended): for every title `X` without `$` and every embedded `index.html` whose
text has exactly one match of `<title>(.*?)</title>` (a `<title>`, then the nearest
`</title>` with no newline in between), after `UpdateHtmlTitle(X)` the body written for
`/` is the source with the matched span replaced by `<title>X</title>` and is identical to
the source before and after that span; when `X` also has no newline and nothing was written
to the response before, the body contains exactly one occurrence of `<title>X</title>`. -/
theorem title_round_trip (isNameRune : Char → Bool) (fileServer : Handler)
    (webFS : String → Option Str) (s : Sys) (w : ResponseWriter) (X src pre cap post : Str)
    (hfs : webFS "index.html" = some src) (hX : '$' ∉ X)
    (h1 : findTitle src = some (pre, cap, post)) (h2 : findTitle post = none) :
    src = pre ++ (titleOpen ++ cap ++ titleClose) ++ post ∧
    handler isNameRune fileServer webFS (UpdateHtmlTitle X s).app w { Path := "/".toList } =
      (w.SetHeader "Content-Type" "text/html; charset=utf-8").Write
        (pre ++ (titleOpen ++ X ++ titleClose) ++ post) ∧
    (w.body = [] → Char.ofNat 10 ∉ X →
      countOccurrences (titleOpen ++ X ++ titleClose)
        (handler isNameRune fileServer webFS (UpdateHtmlTitle X s).app w
          { Path := "/".toList }).body = 1) := by
  have hrepl : '$' ∉ titleOpen ++ X ++ titleClose := by
    simp only [List.mem_append, not_or]
    exact ⟨⟨by decide, hX⟩, by decide⟩
  have hbody : handler isNameRune fileServer webFS (UpdateHtmlTitle X s).app w
      { Path := "/".toList } =
      (w.SetHeader "Content-Type" "text/html; charset=utf-8").Write
        (pre ++ (titleOpen ++ X ++ titleClose) ++ post) := by
    simp only [handler, pathClean_root, htmlRoute_root, if_true, hfs, UpdateHtmlTitle]
    rw [ReplaceAllString_one_match isNameRune src _ pre cap post hrepl h1 h2]
  refine ⟨?_, hbody, ?_⟩
  · simpa using findTitle_spec src pre cap post h1
  · intro hw hnl
    have hb : ((w.SetHeader "Content-Type" "text/html; charset=utf-8").Write
        (pre ++ (titleOpen ++ X ++ titleClose) ++ post)).body =
        pre ++ (titleOpen ++ X ++ titleClose) ++ post := by
      cases hst : w.status <;>
        simp [ResponseWriter.Write, ResponseWriter.WriteHeader, ResponseWriter.SetHeader, hst, hw]
    rw [hbody, hb]
    exact countOccurrences_titleTag X cap post hnl src pre h1 h2

theorem title_round_trip_witness :
    "<head><title>GoStream</title></head>".toList =
        "<head>".toList ++ (titleOpen ++ "GoStream".toList ++ titleClose) ++ "</head>".toList ∧
    handler asciiNameRune (fun w _ => w)
        (fun _ => some "<head><title>GoStream</title></head>".toList)
        (UpdateHtmlTitle "X".toList Sys.init).app ResponseWriter.new { Path := "/".toList } =
      (ResponseWriter.new.SetHeader "Content-Type" "text/html; charset=utf-8").Write
        ("<head>".toList ++ (titleOpen ++ "X".toList ++ titleClose) ++ "</head>".toList) ∧
    countOccurrences (titleOpen ++ "X".toList ++ titleClose)
      (handler asciiNameRune (fun w _ => w)
        (fun _ => some "<head><title>GoStream</title></head>".toList)
        (UpdateHtmlTitle "X".toList Sys.init).app ResponseWriter.new
        { Path := "/".toList }).body = 1 :=
  have h := title_round_trip asciiNameRune (fun w _ => w)
    (fun _ => some "<head><title>GoStream</title></head>".toList) Sys.init ResponseWriter.new
    "X".toList "<head><title>GoStream</title></head>".toList "<head>".toList "GoStream".toList
    "</head>".toList rfl (by decide) (by decide) (by decide)
  ⟨h.1, h.2.1, h.2.2 rfl (by decide)⟩

/-- C1 fails as stated: for an embedded document with two `<title>` elements,
`ReplaceAllString` rewrites both, so after `UpdateHtmlTitle("X")` the body for `/` holds
`<title>X</title>` twice and differs from the source outside the first title span. -/
theorem title_replaced_in_every_match :
    handler asciiNameRune (fun w _ => w)
        (fun _ => some "<title>a</title><title>b</title>".toList)
        (UpdateHtmlTitle "X".toList Sys.init).app ResponseWriter.new { Path := "/".toList } =
      { header := [("Content-Type", "text/html; charset=utf-8")], status := some 200,
        body := "<title>X</title><title>X</title>".toList } ∧
    countOccurrences "<title>X</title>".toList "<title>X</title><title>X</title>".toList = 2 := by
  constructor <;> decide

/-- A title containing `$1` is expanded as a template by `ReplaceAllString`: after
`UpdateHtmlTitle("$1")` the page keeps its old title. -/
theorem title_dollar_is_expanded :
    (handler asciiNameRune (fun w _ => w) (fun _ => some "<title>old</title>".toList)
        (UpdateHtmlTitle "$1".toList Sys.init).app ResponseWriter.new { Path := "/".toList }).body =
      "<title>old</title>".toList := by
  decide

/-- A title containing a newline is not matched by the pattern itself, so the source may
already hold it: the body then has two occurrences of the new title element. -/
theorem title_newline_counted_twice :
    findTitle "<title>\n</title><title>a</title>".toList =
      some ("<title>\n</title>".toList, "a".toList, []) ∧
    findTitle [] = none ∧
    countOccurrences (titleOpen ++ "\n".toList ++ titleClose)
      (handler asciiNameRune (fun w _ => w)
        (fun _ => some "<title>\n</title><title>a</title>".toList)
        (UpdateHtmlTitle "\n".toList Sys.init).app ResponseWriter.new
        { Path := "/".toList }).body = 2 := by
  refine ⟨?_, ?_, ?_⟩ <;> decide

/-! ## Edge HTTP server: routing -/

theorem htmlRoute_of_not_mem (p : Str)
    (h : p ∉ ["/".toList, "/index.html".toList, "/flv/".toList, "/flv/index.html".toList,
      "/hls/".toList, "/hls/index.html".toList]) : htmlRoute p = (false, "") := by
  simp only [List.mem_cons, List.mem_singleton, not_or, List.not_mem_nil, or_false] at h
  obtain ⟨h1, h2, h3, h4, h5, h6⟩ := h
  simp only [htmlRoute, h1, h2, h3, h4, h5, h6, or_self, if_false]

/-- Routing on the cleaned path: the handler classifies the request by
`path.Clean(r.URL.Path)`. The paths `/`, `/index.html`, `/flv/index.html`,
`/hls/index.html` are their own normal form; a request whose normal form is one of them is
answered with the embedded file `index.html`, `flv/index.html`, `hls/index.html`
respectively, its title rewritten to the current `htmlTitle`, with Content-Type
`text/html; charset=utf-8`; a request whose normal form equals none of the six case labels
reaches the call of the static file server. -/
theorem handler_routes (isNameRune : Char → Bool) (fileServer : Handler)
    (webFS : String → Option Str) (a : App) (w : ResponseWriter) (r : Request) :
    (pathClean "/".toList = "/".toList ∧ pathClean "/index.html".toList = "/index.html".toList ∧
      pathClean "/flv/index.html".toList = "/flv/index.html".toList ∧
      pathClean "/hls/index.html".toList = "/hls/index.html".toList) ∧
    (pathClean r.Path = "/".toList ∨ pathClean r.Path = "/index.html".toList →
      ∀ content, webFS "index.html" = some content →
        handler isNameRune fileServer webFS a w r =
          (w.SetHeader "Content-Type" "text/html; charset=utf-8").Write
            (ReplaceAllString isNameRune content (titleOpen ++ a.htmlTitle ++ titleClose))) ∧
    (pathClean r.Path = "/flv/index.html".toList →
      ∀ content, webFS "flv/index.html" = some content →
        handler isNameRune fileServer webFS a w r =
          (w.SetHeader "Content-Type" "text/html; charset=utf-8").Write
            (ReplaceAllString isNameRune content (titleOpen ++ a.htmlTitle ++ titleClose))) ∧
    (pathClean r.Path = "/hls/index.html".toList →
      ∀ content, webFS "hls/index.html" = some content →
        handler isNameRune fileServer webFS a w r =
          (w.SetHeader "Content-Type" "text/html; charset=utf-8").Write
            (ReplaceAllString isNameRune content (titleOpen ++ a.htmlTitle ++ titleClose))) ∧
    (pathClean r.Path ∉ ["/".toList, "/index.html".toList, "/flv/".toList,
        "/flv/index.html".toList, "/hls/".toList, "/hls/index.html".toList] →
      handler isNameRune fileServer webFS a w r = fileServer w r) := by
  refine ⟨⟨by decide, by decide, by decide, by decide⟩, ?_, ?_, ?_, ?_⟩
  · intro h content hc
    have hr : htmlRoute (pathClean r.Path) = (true, "index.html") := by
      rcases h with h | h <;> rw [h] <;> decide
    simp [handler, hr, hc]
  · intro h content hc
    have hr : htmlRoute (pathClean r.Path) = (true, "flv/index.html") := by
      rw [h]; decide
    simp [handler, hr, hc]
  · intro h content hc
    have hr : htmlRoute (pathClean r.Path) = (true, "hls/index.html") := by
      rw [h]; decide
    simp [handler, hr, hc]
  · intro h
    simp [handler, htmlRoute_of_not_mem _ h]

theorem handler_routes_witness :
    handler asciiNameRune (fun w _ => w.WriteHeader 404) (fun _ => some "<title>t</title>".toList)
        NewApp ResponseWriter.new { Path := "/index.html".toList } =
      (ResponseWriter.new.SetHeader "Content-Type" "text/html; charset=utf-8").Write
        (ReplaceAllString asciiNameRune "<title>t</title>".toList
          (titleOpen ++ NewApp.htmlTitle ++ titleClose)) ∧
    handler asciiNameRune (fun w _ => w.WriteHeader 404) (fun _ => some "<title>t</title>".toList)
        NewApp ResponseWriter.new { Path := "/main.js".toList } =
      ResponseWriter.new.WriteHeader 404 :=
  ⟨(handler_routes asciiNameRune (fun w _ => w.WriteHeader 404)
      (fun _ => some "<title>t</title>".toList) NewApp ResponseWriter.new
      { Path := "/index.html".toList }).2.1 (Or.inr (by decide)) _ rfl,
   (handler_routes asciiNameRune (fun w _ => w.WriteHeader 404)
      (fun _ => some "<title>t</title>".toList) NewApp ResponseWriter.new
      { Path := "/main.js".toList }).2.2.2.2 (by decide)⟩

/-- The switch is on the cleaned path, so a path outside the six case labels can be an
HTML route: `path.Clean` turns `/index.html/` into `/index.html` and the handler serves
the rewritten `index.html`. -/
theorem handler_trailing_slash_is_html :
    "/index.html/".toList ∉ ["/".toList, "/index.html".toList, "/flv/".toList,
        "/flv/index.html".toList, "/hls/".toList, "/hls/index.html".toList] ∧
    htmlRoute (pathClean "/index.html/".toList) = (true, "index.html") ∧
    handler asciiNameRune (fun w _ => w.WriteHeader 404) (fun _ => some "<title>t</title>".toList)
        NewApp ResponseWriter.new { Path := "/index.html/".toList } =
      { header := [("Content-Type", "text/html; charset=utf-8")], status := some 200,
        body := "<title>GoStream</title>".toList } ∧
    handler asciiNameRune (fun w _ => w.WriteHeader 404) (fun _ => some "<title>t</title>".toList)
        NewApp ResponseWriter.new { Path := "/index.html/".toList } ≠
      ResponseWriter.new.WriteHeader 404 := by
  refine ⟨by decide, by decide, by decide, by decide⟩

/-- C2: the switch of the handler has the case labels `/flv/` and `/hls/` for the HTML
files `flv/index.html` and `hls/index.html`, but it is applied to `path.Clean(r.URL.Path)`,
which strips the trailing slash: for every title, embedded filesystem, file server and
response writer the requests `/flv/` and `/hls/` go to the static file server and the
title is not rewritten by the handler. -/
theorem handler_flv_hls_slash_delegated (isNameRune : Char → Bool) (fileServer : Handler)
    (webFS : String → Option Str) (a : App) (w : ResponseWriter) :
    (htmlRoute "/flv/".toList = (true, "flv/index.html") ∧
      htmlRoute "/hls/".toList = (true, "hls/index.html")) ∧
    (pathClean "/flv/".toList = "/flv".toList ∧ pathClean "/hls/".toList = "/hls".toList) ∧
    (htmlRoute (pathClean "/flv/".toList) = (false, "") ∧
      htmlRoute (pathClean "/hls/".toList) = (false, "")) ∧
    handler isNameRune fileServer webFS a w { Path := "/flv/".toList } =
      fileServer w { Path := "/flv/".toList } ∧
    handler isNameRune fileServer webFS a w { Path := "/hls/".toList } =
      fileServer w { Path := "/hls/".toList } := by
  have h1 : htmlRoute (pathClean "/flv/".toList) = (false, "") := by decide
  have h2 : htmlRoute (pathClean "/hls/".toList) = (false, "") := by decide
  refine ⟨⟨by decide, by decide⟩, ⟨by decide, by decide⟩, ⟨h1, h2⟩, ?_, ?_⟩
  · simp only [handler, h1, Bool.false_eq_true, if_false]
  · simp only [handler, h2, Bool.false_eq_true, if_false]

/-! ## Edge HTTP server: CORS middleware -/

theorem liveMatchString_iff (p : Str) :
    liveMatchString p = true ↔ "/live/".toList <+: p := by
  unfold liveMatchString
  rw [List.any_eq_true]
  constructor
  · rintro ⟨i, _, hi⟩
    simp only [Bool.and_eq_true, beq_iff_eq] at hi
    obtain ⟨h0, hp⟩ := hi
    subst h0
    simpa using List.isPrefixOf_iff_prefix.1 hp
  · intro h
    exact ⟨0, by simp, by simpa using List.isPrefixOf_iff_prefix.2 h⟩

/-- C6: the CORS middleware sets `Access-Control-Allow-Origin: *` on the response exactly
when the request path begins with `/live/`, and in both cases passes the request on to the
wrapped handler; `/live/movie.flv` gets the header and `/` does not. -/
theorem corsHandler_live_only (h : Handler) (w : ResponseWriter) (r : Request) :
    ("/live/".toList <+: r.Path →
      corsHandler h w r = h (w.SetHeader "Access-Control-Allow-Origin" "*") r ∧
      (w.SetHeader "Access-Control-Allow-Origin" "*").GetHeader "Access-Control-Allow-Origin" =
        some "*") ∧
    (¬ "/live/".toList <+: r.Path → corsHandler h w r = h w r) ∧
    corsHandler h w { Path := "/live/movie.flv".toList } =
      h (w.SetHeader "Access-Control-Allow-Origin" "*") { Path := "/live/movie.flv".toList } ∧
    corsHandler h w { Path := "/".toList } = h w { Path := "/".toList } := by
  have hflv : liveMatchString "/live/movie.flv".toList = true := by decide
  have hroot : liveMatchString "/".toList = false := by decide
  refine ⟨fun hp => ⟨?_, ?_⟩, fun hp => ?_, ?_, ?_⟩
  · simp [corsHandler, (liveMatchString_iff r.Path).2 hp]
  · simp [ResponseWriter.SetHeader, ResponseWriter.GetHeader]
  · have : liveMatchString r.Path = false := by
      cases hm : liveMatchString r.Path with
      | false => rfl
      | true => exact absurd ((liveMatchString_iff r.Path).1 hm) hp
    simp [corsHandler, this]
  · simp only [corsHandler, hflv, if_true]
  · simp only [corsHandler, hroot, Bool.false_eq_true, if_false]

theorem corsHandler_live_only_witness :
    corsHandler (fun w _ => w) ResponseWriter.new { Path := "/live/movie/0.ts".toList } =
      ResponseWriter.new.SetHeader "Access-Control-Allow-Origin" "*" ∧
    corsHandler (fun w _ => w) ResponseWriter.new { Path := "/control/get".toList } =
      ResponseWriter.new :=
  ⟨((corsHandler_live_only (fun w _ => w) ResponseWriter.new
      { Path := "/live/movie/0.ts".toList }).1 (by decide)).1,
   (corsHandler_live_only (fun w _ => w) ResponseWriter.new
      { Path := "/control/get".toList }).2.1 (by decide)⟩

/-! ### The fuel of the loops is never exhausted -/

theorem cleanLoop_fuel (rooted : Bool) (fuel : Nat) : ∀ (rest out : List Char) (dotdot : Nat),
    rest.length ≤ fuel →
    cleanLoop rooted (fuel + 1) rest out dotdot = cleanLoop rooted fuel rest out dotdot := by
  induction fuel with
  | zero =>
    intro rest out dotdot h
    have : rest = [] := List.length_eq_zero.1 (Nat.le_zero.1 h)
    subst this
    simp [cleanLoop]
  | succ n ih =>
    intro rest out dotdot h
    cases rest with
    | nil => simp [cleanLoop]
    | cons c rest =>
      have hr : rest.length ≤ n := by simpa using h
      have ht : rest.tail.length ≤ n := by
        rw [List.length_tail]; omega
      have hd : c ≠ '/' → ((c :: rest).dropWhile (fun x => x != '/')).length ≤ n := by
        intro hc
        have hb : (c != '/') = true := by simp [hc]
        have : (c :: rest).dropWhile (fun x => x != '/') = rest.dropWhile (fun x => x != '/') := by
          simp only [List.dropWhile_cons, hb, if_true]
        rw [this]
        exact le_trans (List.dropWhile_sublist _).length_le hr
      cases out <;> cases rooted <;> simp only [cleanLoop] <;> split_ifs <;>
        first
        | rfl
        | exact ih _ _ _ hr
        | exact ih _ _ _ ht
        | exact ih _ _ _ (hd (by assumption))

theorem cleanLoop_fuel_add (rooted : Bool) (fuel k : Nat) (rest out : List Char) (dotdot : Nat)
    (h : rest.length ≤ fuel) :
    cleanLoop rooted (fuel + k) rest out dotdot = cleanLoop rooted fuel rest out dotdot := by
  induction k with
  | zero => rfl
  | succ k ih =>
    rw [← Nat.add_assoc, cleanLoop_fuel rooted (fuel + k) rest out dotdot (by omega), ih]

theorem replaceAll_fuel (repl : Str → Str → Str) (fuel : Nat) : ∀ (src : Str),
    src.length < fuel → replaceAll repl (fuel + 1) src = replaceAll repl fuel src := by
  induction fuel with
  | zero => intro src h; exact absurd h (Nat.not_lt_zero _)
  | succ n ih =>
    intro src h
    rw [replaceAll, replaceAll]
    cases hf : findTitle src with
    | none => rfl
    | some q =>
      obtain ⟨pre, cap, rest⟩ := q
      have hs := congrArg List.length (findTitle_spec src pre cap rest hf)
      simp only [List.length_append] at hs
      have hopen : titleOpen.length = 7 := rfl
      have hlen : rest.length < n := by omega
      simp only [ih rest hlen]

theorem replaceAll_fuel_add (repl : Str → Str → Str) (fuel k : Nat) (src : Str)
    (h : src.length < fuel) : replaceAll repl (fuel + k) src = replaceAll repl fuel src := by
  induction k with
  | zero => rfl
  | succ k ih => rw [← Nat.add_assoc, replaceAll_fuel repl (fuel + k) src (by omega), ih]

theorem cutDollar_spec (t before after : Str) (h : cutDollar t = some (before, after)) :
    t = before ++ '$' :: after := by
  induction t generalizing before with
  | nil => simp [cutDollar] at h
  | cons c cs ih =>
    rw [cutDollar] at h
    by_cases hc : c = '$'
    · rw [if_pos hc] at h
      simp only [Option.some.injEq, Prod.mk.injEq] at h
      obtain ⟨h1, h2⟩ := h
      subst h1 h2 hc
      rfl
    · rw [if_neg hc] at h
      cases hr : cutDollar cs with
      | none => rw [hr] at h; simp at h
      | some q =>
        obtain ⟨b1, a1⟩ := q
        simp only [hr, Option.some.injEq, Prod.mk.injEq] at h
        obtain ⟨h1, h2⟩ := h
        subst h1 h2
        rw [ih b1 hr]
        rfl

theorem extract_length (isNameRune : Char → Bool) (str name rest : Str) (num : Option Nat)
    (h : extract isNameRune str = some (name, num, rest)) : rest.length ≤ str.length := by
  cases str with
  | nil => simp [extract] at h
  | cons c cs =>
    have hdrop : ∀ l : Str, (l.dropWhile isNameRune).length ≤ l.length :=
      fun l => (List.dropWhile_sublist _).length_le
    cases hb : (c == '{') with
    | true =>
      simp only [extract, hb, if_true] at h
      split_ifs at h
      split at h
      · rename_i rest1 hafter
        simp only [Option.some.injEq, Prod.mk.injEq] at h
        obtain ⟨_, _, h3⟩ := h
        subst h3
        have h4 := hdrop cs
        rw [hafter] at h4
        simp only [List.length_cons] at h4 ⊢
        omega
      · simp at h
    | false =>
      simp only [extract, hb, Bool.false_eq_true, if_false] at h
      split_ifs at h
      simp only [Option.some.injEq, Prod.mk.injEq] at h
      obtain ⟨_, _, h3⟩ := h
      subst h3
      exact hdrop (c :: cs)

theorem expand_fuel (isNameRune : Char → Bool) (whole group1 : Str) (fuel : Nat) :
    ∀ (template : Str), template.length < fuel →
    expand isNameRune whole group1 (fuel + 1) template =
      expand isNameRune whole group1 fuel template := by
  induction fuel with
  | zero => intro t h; exact absurd h (Nat.not_lt_zero _)
  | succ n ih =>
    intro t h
    rw [expand, expand]
    cases hc : cutDollar t with
    | none => rfl
    | some q =>
      obtain ⟨before, after⟩ := q
      have hs := congrArg List.length (cutDollar_spec t before after hc)
      simp only [List.length_append, List.length_cons] at hs
      have hafter : after.length < n := by omega
      dsimp only
      cases after with
      | nil =>
        simp only
        cases he : extract isNameRune [] with
        | none => simp only [ih [] hafter]
        | some r => simp [extract] at he
      | cons a after1 =>
        by_cases ha : a = '$'
        · subst ha
          simp only
          rw [ih after1 (by simp only [List.length_cons] at hafter; omega)]
        · have hrest : ∀ rest : Str, rest.length ≤ (a :: after1).length →
              expand isNameRune whole group1 (n + 1) rest =
                expand isNameRune whole group1 n rest :=
            fun rest hr => ih rest (lt_of_le_of_lt hr hafter)
          split
          · rename_i x heq
            exact absurd (List.head_eq_of_cons_eq heq) ha
          · split
            · rw [hrest _ (Nat.le_refl _)]
            · rename_i name num rest he
              rw [hrest rest (extract_length isNameRune _ name rest num he)]

theorem expand_fuel_add (isNameRune : Char → Bool) (whole group1 : Str) (fuel k : Nat)
    (template : Str) (h : template.length < fuel) :
    expand isNameRune whole group1 (fuel + k) template =
      expand isNameRune whole group1 fuel template := by
  induction k with
  | zero => rfl
  | succ k ih =>
    rw [← Nat.add_assoc, expand_fuel isNameRune whole group1 (fuel + k) template (by omega), ih]

end GoStream
